import Mathlib

/-!
# Verification of the PDPL compliance-scoring pipeline

Shallow embedding, in Lean 4, of the core scoring/retrieval functions of the
`Senior_Project_Code` repository:

* `src/utils/text_utils.py` — `normalize_text`
* `src/utils/scoring_utils.py` — `_traditional_clause_match`,
  `calculate_article_coverage`, `_calculate_article_coverage_llm_article_level`,
  `calculate_overall_score`
* `src/services/llm_service.py` — the score-application stage of
  `llm_rerank_articles`
* `src/services/matching_service.py` — the candidate-combination stage of
  `match_with_pdpl`

Modelling conventions:

* Python strings are `List Char` (named `Str` below); Python's `str.lower`,
  `str.strip`, the regex classes `\s` and `\w` are modelled at the ASCII
  level (Python additionally handles non-ASCII Unicode categories, which no
  claim depends on).
* Python floats are modelled as exact rationals `ℚ`; `round(x, nd)` is
  modelled as exact round-half-to-even at `nd` decimal digits (the behaviour
  of Python's `round` on exactly-representable values).
* Python `None` / missing dict keys become `Option`; `raise` becomes
  `Except.error`; the process-global `_llm_only_mode` flag is threaded as an
  explicit boolean parameter; the LLM judge transport is an explicit function
  parameter `JudgeFn` (its `None` result models every failure mode of
  `llm_clause_match`).
-/

/-- Python strings, modelled as lists of characters. -/
abbrev Str := List Char

/-! ## Text utilities (`src/utils/text_utils.py`) -/

/-- ASCII fragment of Python's regex class `\s` (the characters matched by
`\s` on ASCII input: space, tab, newline, carriage return, vertical tab,
form feed). -/
def isPySpace (c : Char) : Bool :=
  c = ' ' || c = '\t' || c = '\n' || c = '\r' || c = '\x0b' || c = '\x0c'

/-- ASCII fragment of Python's regex class `\w`: alphanumerics and `_`. -/
def isWordChar (c : Char) : Bool :=
  c.isAlphanum || c = '_'

/-- ASCII fragment of Python's `str.lower`: maps `A`–`Z` to `a`–`z` and
leaves every other character unchanged. -/
def asciiLower (c : Char) : Char :=
  match c with
  | 'A' => 'a' | 'B' => 'b' | 'C' => 'c' | 'D' => 'd' | 'E' => 'e'
  | 'F' => 'f' | 'G' => 'g' | 'H' => 'h' | 'I' => 'i' | 'J' => 'j'
  | 'K' => 'k' | 'L' => 'l' | 'M' => 'm' | 'N' => 'n' | 'O' => 'o'
  | 'P' => 'p' | 'Q' => 'q' | 'R' => 'r' | 'S' => 's' | 'T' => 't'
  | 'U' => 'u' | 'V' => 'v' | 'W' => 'w' | 'X' => 'x' | 'Y' => 'y'
  | 'Z' => 'z'
  | c => c

/-- Python's `str.lower()` (ASCII fragment), character-wise. -/
def pyLower (s : Str) : Str := s.map asciiLower

/-- Python's `str.strip()`: drop leading and trailing whitespace. -/
def pyStrip (s : Str) : Str :=
  ((s.dropWhile isPySpace).reverse.dropWhile isPySpace).reverse

/-- `re.sub(r'\s+', ' ', s)`: replace every maximal run of whitespace
characters by a single space. -/
def collapseWS : Str → Str
  | [] => []
  | [c] => if isPySpace c then [' '] else [c]
  | c₁ :: c₂ :: rest =>
    if isPySpace c₁ && isPySpace c₂ then collapseWS (c₂ :: rest)
    else (if isPySpace c₁ then ' ' else c₁) :: collapseWS (c₂ :: rest)

/-- `re.sub(r'[^\w\s]', '', s)`: delete every character that is neither a
word character nor whitespace. -/
def stripNonWord (s : Str) : Str :=
  s.filter (fun c => isWordChar c || isPySpace c)

/-- `normalize_text` from `src/utils/text_utils.py`:
`text = re.sub(r'\s+', ' ', text.lower().strip())` followed by
`text = re.sub(r'[^\w\s]', '', text)`. -/
def normalize_text (s : Str) : Str :=
  stripNonWord (collapseWS (pyStrip (pyLower s)))

/-! ### Structural lemmas about `normalize_text`

The key facts: `asciiLower` is idempotent, characters of the output are
lower-case word characters or the single space, and the strip/collapse
composition is idempotent on strings that are already stripped and
collapsed.  Together these show that `normalize_text` stabilises after two
applications (it is *not* idempotent after one, see claim C2). -/

theorem asciiLower_cases (c : Char) :
    asciiLower c = c ∨ asciiLower c ∈ "abcdefghijklmnopqrstuvwxyz".toList := by
  unfold asciiLower
  split
  all_goals first
    | (left; rfl)
    | (right; decide)

theorem asciiLower_of_lower {c : Char}
    (h : c ∈ "abcdefghijklmnopqrstuvwxyz".toList) : asciiLower c = c := by
  fin_cases h <;> rfl

theorem asciiLower_idem (c : Char) : asciiLower (asciiLower c) = asciiLower c := by
  rcases asciiLower_cases c with h | h
  · rw [h]; exact h
  · exact asciiLower_of_lower h

theorem mem_pyStrip {c : Char} {s : Str} (h : c ∈ pyStrip s) : c ∈ s := by
  unfold pyStrip at h
  rw [List.mem_reverse] at h
  have h₁ := (List.dropWhile_suffix isPySpace).subset h
  rw [List.mem_reverse] at h₁
  exact (List.dropWhile_suffix isPySpace).subset h₁

theorem mem_collapseWS {c : Char} :
    ∀ {s : Str}, c ∈ collapseWS s → c ∈ s ∨ c = ' '
  | [], h => by simp [collapseWS] at h
  | [d], h => by
    by_cases hd : isPySpace d
    · simp [collapseWS, hd] at h; right; exact h
    · simp [collapseWS, hd] at h; left; simp [h]
  | c₁ :: c₂ :: rest, h => by
    unfold collapseWS at h
    by_cases h12 : (isPySpace c₁ && isPySpace c₂) = true
    · rw [if_pos h12] at h
      rcases mem_collapseWS h with h' | h'
      · exact Or.inl (List.mem_cons_of_mem _ h')
      · exact Or.inr h'
    · rw [if_neg h12] at h
      rcases List.mem_cons.mp h with h' | h'
      · by_cases h1 : isPySpace c₁
        · exact Or.inr (by simpa [h1] using h')
        · left; simp [h1] at h'; simp [h']
      · rcases mem_collapseWS h' with h'' | h''
        · exact Or.inl (List.mem_cons_of_mem _ h'')
        · exact Or.inr h''

theorem mem_stripNonWord {c : Char} {s : Str} (h : c ∈ stripNonWord s) : c ∈ s :=
  (List.mem_filter.mp h).1

theorem pred_of_mem_stripNonWord {c : Char} {s : Str} (h : c ∈ stripNonWord s) :
    (isWordChar c || isPySpace c) = true :=
  (List.mem_filter.mp h).2

theorem pyLower_fix {s : Str} (h : ∀ c ∈ s, asciiLower c = c) : pyLower s = s := by
  unfold pyLower
  calc s.map asciiLower = s.map (fun a => a) := List.map_congr_left h
  _ = s := by simp

theorem stripNonWord_fix {s : Str} (h : ∀ c ∈ s, (isWordChar c || isPySpace c) = true) :
    stripNonWord s = s :=
  List.filter_eq_self.mpr h

/-- No leading whitespace character. -/
def HeadOK : Str → Prop
  | [] => True
  | c :: _ => isPySpace c = false

/-- No trailing whitespace character. -/
def LastOK (s : Str) : Prop := HeadOK s.reverse

/-- No two adjacent whitespace characters. -/
def RunOK : Str → Prop
  | [] => True
  | [_] => True
  | c₁ :: c₂ :: rest => ¬(isPySpace c₁ = true ∧ isPySpace c₂ = true) ∧ RunOK (c₂ :: rest)

/-- Every whitespace character is the plain space. -/
def SpaceOK (s : Str) : Prop := ∀ c ∈ s, isPySpace c = true → c = ' '

theorem headOK_dropWhile : ∀ s : Str, HeadOK (s.dropWhile isPySpace)
  | [] => trivial
  | c :: rest => by
    by_cases hc : isPySpace c
    · rw [List.dropWhile_cons, if_pos hc]; exact headOK_dropWhile rest
    · rw [List.dropWhile_cons, if_neg hc]
      simpa [HeadOK] using hc

theorem dropWhile_eq_self_of_headOK {s : Str} (h : HeadOK s) :
    s.dropWhile isPySpace = s := by
  cases s with
  | nil => rfl
  | cons c rest =>
    rw [List.dropWhile_cons, if_neg (by simp [HeadOK] at h; simp [h])]

theorem pyStrip_fix {s : Str} (h₁ : HeadOK s) (h₂ : LastOK s) : pyStrip s = s := by
  unfold pyStrip
  rw [dropWhile_eq_self_of_headOK h₁, dropWhile_eq_self_of_headOK h₂,
    List.reverse_reverse]

theorem collapseWS_cons_cons (c₁ c₂ : Char) (r : Str) :
    collapseWS (c₁ :: c₂ :: r) =
      if (isPySpace c₁ && isPySpace c₂) = true then collapseWS (c₂ :: r)
      else (if isPySpace c₁ = true then ' ' else c₁) :: collapseWS (c₂ :: r) := rfl

theorem collapseWS_cons_of_not_ws {c : Char} (hc : isPySpace c = false) (r : Str) :
    collapseWS (c :: r) = c :: collapseWS r := by
  cases r with
  | nil => simp [collapseWS, hc]
  | cons d t => simp [collapseWS, hc]

theorem collapseWS_ne_nil : ∀ {s : Str}, s ≠ [] → collapseWS s ≠ []
  | [], h => absurd rfl h
  | [c], _ => by by_cases hc : isPySpace c <;> simp [collapseWS, hc]
  | c₁ :: c₂ :: r, _ => by
    by_cases h12 : (isPySpace c₁ && isPySpace c₂) = true
    · rw [collapseWS_cons_cons, if_pos h12]
      exact collapseWS_ne_nil (List.cons_ne_nil _ _)
    · rw [collapseWS_cons_cons, if_neg h12]
      exact List.cons_ne_nil _ _

theorem spaceOK_collapseWS : ∀ s : Str, SpaceOK (collapseWS s)
  | [] => by intro c hc; simp [collapseWS] at hc
  | [c] => by
    intro c' hc' hws
    by_cases hc : isPySpace c
    · simp [collapseWS, hc] at hc'; exact hc'
    · simp [collapseWS, hc] at hc'; subst hc'; simp [hc] at hws
  | c₁ :: c₂ :: r => by
    intro c hc hws
    by_cases h12 : (isPySpace c₁ && isPySpace c₂) = true
    · rw [collapseWS_cons_cons, if_pos h12] at hc
      exact spaceOK_collapseWS (c₂ :: r) c hc hws
    · rw [collapseWS_cons_cons, if_neg h12] at hc
      rcases List.mem_cons.mp hc with h' | h'
      · subst h'
        by_cases h1 : isPySpace c₁
        · simp [h1]
        · simp [h1] at hws
      · exact spaceOK_collapseWS (c₂ :: r) c h' hws

theorem runOK_cons {a : Char} {l : Str}
    (h : ∀ b, l.head? = some b → ¬(isPySpace a = true ∧ isPySpace b = true))
    (hl : RunOK l) : RunOK (a :: l) := by
  cases l with
  | nil => trivial
  | cons b t => exact ⟨h b rfl, hl⟩

theorem runOK_collapseWS : ∀ s : Str, RunOK (collapseWS s)
  | [] => trivial
  | [c] => by by_cases hc : isPySpace c <;> simp [collapseWS, hc, RunOK]
  | c₁ :: c₂ :: r => by
    by_cases h12 : (isPySpace c₁ && isPySpace c₂) = true
    · rw [collapseWS_cons_cons, if_pos h12]
      exact runOK_collapseWS (c₂ :: r)
    · rw [collapseWS_cons_cons, if_neg h12]
      by_cases h1 : isPySpace c₁ = true
      · have h2 : isPySpace c₂ = false := by
          cases hh : isPySpace c₂
          · rfl
          · rw [h1, hh] at h12; simp at h12
        rw [if_pos h1, collapseWS_cons_of_not_ws h2]
        refine runOK_cons ?_ ?_
        · intro b hb hcontra
          rw [List.head?_cons, Option.some_inj] at hb
          subst hb
          rw [h2] at hcontra
          exact absurd hcontra.2 (by simp)
        · rw [← collapseWS_cons_of_not_ws h2]
          exact runOK_collapseWS (c₂ :: r)
      · rw [if_neg h1]
        refine runOK_cons ?_ (runOK_collapseWS (c₂ :: r))
        intro b _ hcontra
        exact absurd hcontra.1 (by simpa using h1)

theorem headOK_collapseWS {s : Str} (h : HeadOK s) : HeadOK (collapseWS s) := by
  cases s with
  | nil => trivial
  | cons c r =>
    have hc : isPySpace c = false := h
    rw [collapseWS_cons_of_not_ws hc]
    exact hc

theorem headOK_append_of_ne_nil {l : Str} (a : Char) (hl : l ≠ []) :
    HeadOK (l ++ [a]) ↔ HeadOK l := by
  cases l with
  | nil => exact absurd rfl hl
  | cons c t => simp [HeadOK]

theorem lastOK_cons_cons {c₁ c₂ : Char} {r : Str} :
    LastOK (c₁ :: c₂ :: r) ↔ LastOK (c₂ :: r) := by
  unfold LastOK
  rw [List.reverse_cons c₁ (c₂ :: r)]
  exact headOK_append_of_ne_nil c₁ (by simp)

theorem lastOK_cons_of_ne_nil {a : Char} {l : Str} (hl : l ≠ []) :
    LastOK (a :: l) ↔ LastOK l := by
  cases l with
  | nil => exact absurd rfl hl
  | cons b t => exact lastOK_cons_cons

theorem lastOK_collapseWS : ∀ {s : Str}, LastOK s → LastOK (collapseWS s)
  | [], _ => by simp [collapseWS, LastOK, HeadOK]
  | [c], h => by
    have hc : isPySpace c = false := by
      simpa [LastOK, HeadOK] using h
    simp [collapseWS, hc, LastOK, HeadOK]
  | c₁ :: c₂ :: r, h => by
    have h' : LastOK (c₂ :: r) := lastOK_cons_cons.mp h
    by_cases h12 : (isPySpace c₁ && isPySpace c₂) = true
    · rw [collapseWS_cons_cons, if_pos h12]
      exact lastOK_collapseWS h'
    · rw [collapseWS_cons_cons, if_neg h12]
      rw [lastOK_cons_of_ne_nil (collapseWS_ne_nil (List.cons_ne_nil _ _))]
      exact lastOK_collapseWS h'

theorem headOK_of_prefix {u t : Str} (h : u <+: t) (ht : HeadOK t) : HeadOK u := by
  cases u with
  | nil => trivial
  | cons c u' =>
    obtain ⟨v, hv⟩ := h
    rw [← hv] at ht
    exact ht

theorem headOK_pyStrip (s : Str) : HeadOK (pyStrip s) := by
  have ht : HeadOK (s.dropWhile isPySpace) := headOK_dropWhile s
  have hpre : pyStrip s <+: s.dropWhile isPySpace := by
    unfold pyStrip
    rw [← List.reverse_reverse (s.dropWhile isPySpace), List.reverse_prefix,
      List.reverse_reverse]
    exact List.dropWhile_suffix isPySpace
  exact headOK_of_prefix hpre ht

theorem lastOK_pyStrip (s : Str) : LastOK (pyStrip s) := by
  unfold LastOK pyStrip
  rw [List.reverse_reverse]
  exact headOK_dropWhile _

theorem collapseWS_fix : ∀ {s : Str}, RunOK s → SpaceOK s → collapseWS s = s
  | [], _, _ => rfl
  | [c], _, hsp => by
    by_cases hc : isPySpace c
    · have := hsp c (List.mem_singleton_self c) hc
      simp [collapseWS, hc, this]
    · simp [collapseWS, hc]
  | c₁ :: c₂ :: r, hrun, hsp => by
    have h1 : ¬(isPySpace c₁ = true ∧ isPySpace c₂ = true) := hrun.1
    have h12 : (isPySpace c₁ && isPySpace c₂) = false := by
      cases ha : isPySpace c₁ <;> cases hb : isPySpace c₂ <;> simp_all
    rw [collapseWS_cons_cons, if_neg (by simp [h12])]
    have htail : collapseWS (c₂ :: r) = c₂ :: r :=
      collapseWS_fix hrun.2 (fun c hc hws => hsp c (List.mem_cons_of_mem _ hc) hws)
    rw [htail]
    by_cases hc1 : isPySpace c₁
    · rw [if_pos hc1, hsp c₁ (List.mem_cons_self _ _) hc1]
    · rw [if_neg hc1]

theorem stripCollapse_fix {s : Str} (h₁ : HeadOK s) (h₂ : LastOK s)
    (h₃ : RunOK s) (h₄ : SpaceOK s) : collapseWS (pyStrip s) = s := by
  rw [pyStrip_fix h₁ h₂, collapseWS_fix h₃ h₄]

/-- Stripping and collapsing whitespace is an idempotent operation. -/
theorem stripCollapse_idem (s : Str) :
    collapseWS (pyStrip (collapseWS (pyStrip s))) = collapseWS (pyStrip s) :=
  stripCollapse_fix (headOK_collapseWS (headOK_pyStrip s))
    (lastOK_collapseWS (lastOK_pyStrip s)) (runOK_collapseWS _) (spaceOK_collapseWS _)

theorem mem_stripCollapse {c : Char} {s : Str}
    (h : c ∈ collapseWS (pyStrip s)) : c ∈ s ∨ c = ' ' := by
  rcases mem_collapseWS h with h' | h'
  · exact Or.inl (mem_pyStrip h')
  · exact Or.inr h'

theorem mem_normalize_cases {c : Char} {s : Str} (h : c ∈ normalize_text s) :
    c ∈ pyLower s ∨ c = ' ' :=
  mem_stripCollapse (mem_stripNonWord h)

theorem normalize_chars_lower {s : Str} : ∀ c ∈ normalize_text s, asciiLower c = c := by
  intro c h
  rcases mem_normalize_cases h with h' | h'
  · rcases List.mem_map.mp h' with ⟨x, _, hx⟩
    rw [← hx]
    exact asciiLower_idem x
  · rw [h']; rfl

theorem normalize_chars_wordish {s : Str} :
    ∀ c ∈ collapseWS (pyStrip (normalize_text s)), (isWordChar c || isPySpace c) = true := by
  intro c h
  rcases mem_stripCollapse h with h' | h'
  · exact pred_of_mem_stripNonWord h'
  · rw [h']; rfl

/-- The second application of `normalize_text` only re-strips and re-collapses
whitespace: all offending characters are already gone. -/
theorem normalize_normalize_eq (s : Str) :
    normalize_text (normalize_text s) = collapseWS (pyStrip (normalize_text s)) := by
  have h1 : pyLower (normalize_text s) = normalize_text s :=
    pyLower_fix normalize_chars_lower
  calc normalize_text (normalize_text s)
      = stripNonWord (collapseWS (pyStrip (pyLower (normalize_text s)))) := rfl
    _ = stripNonWord (collapseWS (pyStrip (normalize_text s))) := by rw [h1]
    _ = collapseWS (pyStrip (normalize_text s)) := stripNonWord_fix normalize_chars_wordish


/-! ## Rounding

Python's `round(x, nd)` rounds half to even.  On the exact rationals used in
this model, that is `roundHalfEven` applied at the given decimal shift. -/

/-- Round to the nearest integer, ties to even. -/
def roundHalfEven (q : ℚ) : ℤ :=
  if q - ⌊q⌋ < 1/2 then ⌊q⌋
  else if 1/2 < q - ⌊q⌋ then ⌊q⌋ + 1
  else if ⌊q⌋ % 2 = 0 then ⌊q⌋ else ⌊q⌋ + 1

/-- Python's `round(x, 2)`. -/
def round2 (q : ℚ) : ℚ := (roundHalfEven (q * 100) : ℚ) / 100

theorem roundHalfEven_bounds (q : ℚ) :
    ⌊q⌋ ≤ roundHalfEven q ∧ roundHalfEven q ≤ ⌈q⌉ := by
  unfold roundHalfEven
  have hfc : ⌊q⌋ ≤ ⌈q⌉ := Int.floor_le_ceil q
  have hplus : (1:ℚ)/2 ≤ q - ⌊q⌋ → ⌊q⌋ + 1 ≤ ⌈q⌉ := by
    intro h
    have h' : (⌊q⌋ : ℚ) < q := by linarith
    have := Int.lt_ceil.mpr h'
    omega
  split_ifs with h1 h2 h3
  · exact ⟨le_refl _, hfc⟩
  · exact ⟨by omega, hplus (le_of_lt h2)⟩
  · exact ⟨le_refl _, hfc⟩
  · exact ⟨by omega, hplus (le_of_not_lt h1)⟩

theorem round2_nonneg {q : ℚ} (h : 0 ≤ q) : 0 ≤ round2 q := by
  unfold round2
  have h1 : (0 : ℤ) ≤ ⌊q * 100⌋ := Int.floor_nonneg.mpr (by positivity)
  have h2 := (roundHalfEven_bounds (q * 100)).1
  have h3 : (0 : ℤ) ≤ roundHalfEven (q * 100) := le_trans h1 h2
  have h4 : (0 : ℚ) ≤ (roundHalfEven (q * 100) : ℚ) := by exact_mod_cast h3
  positivity

theorem round2_le {q b : ℚ} (hq : q ≤ b) (hint : (⌈b * 100⌉ : ℚ) ≤ b * 100) :
    round2 q ≤ b := by
  unfold round2
  have h2 := (roundHalfEven_bounds (q * 100)).2
  have hmono : ⌈q * 100⌉ ≤ ⌈b * 100⌉ := Int.ceil_le_ceil (by nlinarith)
  have h3 : (roundHalfEven (q * 100) : ℚ) ≤ (⌈b * 100⌉ : ℚ) := by
    exact_mod_cast le_trans h2 hmono
  have h4 : (roundHalfEven (q * 100) : ℚ) ≤ b * 100 := le_trans h3 hint
  linarith

theorem round2_le_100 {q : ℚ} (h : q ≤ 100) : round2 q ≤ 100 := by
  refine round2_le h ?_
  norm_num

/-! ## Data model (`src/utils/scoring_utils.py`)

Only the dictionary keys that the scoring functions actually read are
modelled.  Loaded clause entries also carry `parent_id` / `full_path` /
`is_main_article`, which the scorer never touches. -/

/-- A (flattened) clause entry: the keys of a clause dict read by the
scorer (`id`, `label`, `path`, `text`). -/
structure Clause where
  id : String
  label : String
  path : String
  text : Str
deriving DecidableEq

/-- A main-article entry as produced by `load_pdpl_articles` (or any article
dict fed to the scorer).  `text = []` models a missing/empty `text` key;
`title = ""` models the absent `title` key. -/
structure Article where
  id : String
  articleNumber : Nat
  label : String
  text : Str
  path : String
  isMainArticle : Bool
  title : String
  clauses : List Clause
deriving DecidableEq

/-- The keyword arguments of one `llm_clause_match_func` call. -/
structure JudgeQuery where
  clauseText : Str
  pdfText : Str
  articleNumber : Nat
  clauseLabel : String
deriving DecidableEq

/-- A non-null judge result: the dict returned by `llm_clause_match`
(`score` is the 0–1 value; `score_percentage` and `method` are derived /
unread and not modelled). -/
structure JudgeResult where
  score : ℚ
  explanation : String
  confidence : String
deriving DecidableEq

/-- The LLM judge transport: `None` models every failure mode of
`llm_clause_match` (disabled flags, missing client, exceptions, timeout). -/
abbrev JudgeFn := JudgeQuery → Option JudgeResult

/-- The `debug_scores` sub-dict attached to clause judgments.  The Python
dict also renders a `formula` display string from these same numbers; that
string is not modelled. -/
structure DebugScores where
  llmScore : ℚ
  traditionalScore : ℚ
  traditionalBeforeBoost : Option ℚ
  finalScore : ℚ
  mode : String
  boostApplied : Bool
deriving DecidableEq

/-- One clause judgment (`clause_info` dict). -/
structure ClauseInfo where
  id : String
  articleNumber : Nat
  label : String
  path : String
  text : Str
  coverageScore : ℚ
  matchingMethod : String
  debugScores : Option DebugScores
  llmExplanation : Option String
  llmConfidence : Option String
  bandTag : Option String
  partialReason : Option String
  missingReason : Option String
deriving DecidableEq

/-- The coverage dict returned by `calculate_article_coverage`.  The Python
function returns dicts of two shapes: the clause/article-level shape carries
`band` plus three `ClauseInfo` lists, while the no-clauses shape carries
`coverage_type` and puts the raw *article* dict into covered/missing lists
(modelled by `coveredArticleRefs` / `missingArticleRefs`) and has no
`partially_covered_clauses` key (hence the `Option`s). -/
structure CoverageResult where
  band : Option String
  coverageType : Option String
  coveragePercentage : ℚ
  coveredClauses : List ClauseInfo
  partiallyCoveredClauses : Option (List ClauseInfo)
  missingClauses : List ClauseInfo
  coveredArticleRefs : List Article
  missingArticleRefs : List Article
  totalClauses : Nat
  coveredClausesCount : Nat
  partiallyCoveredClausesCount : Option Nat
  missingClausesCount : Nat
  articleId : String
  articleNumber : Nat
deriving DecidableEq

/-! ## Coverage Scorer (`src/utils/scoring_utils.py`) -/

/-- `' '.join(texts)`. -/
def joinTexts (ts : List Str) : Str := List.intercalate " ".toList ts

/-- Truncation used for clause-text previews:
`t[:200] + '...' if len(t) > 200 else t`. -/
def truncate200 (s : Str) : Str :=
  if s.length > 200 then s.take 200 ++ "...".toList else s

/-- Python truthiness for the optional string fields: an empty string is
falsy and therefore never stored. -/
def optStr (s : String) : Option String := if s = "" then none else some s

/-- `needle` is an initial segment of `hay`. -/
def strLeads : Str → Str → Bool
  | [], _ => true
  | _ :: _, [] => false
  | a :: as, b :: bs => a = b && strLeads as bs

/-- Substring test, modelling Python's `needle in hay`. -/
def strContains (needle : Str) : Str → Bool
  | [] => strLeads needle []
  | hay@(_ :: t) => strLeads needle hay || strContains needle t

/-- `'llm' in matching_method`. -/
def methodHasLlm (m : String) : Bool := strContains "llm".toList m.toList

/-- The band thresholds applied uniformly in `scoring_utils`
(`>= 75 → Full`, `>= 40 → Partial`, else `Missing`); this exact
`if`/`elif`/`else` appears verbatim in both the clause-path and the
article-level path of the scorer. -/
def bandOfPercentage (p : ℚ) : String :=
  if p ≥ 75 then "Full" else if p ≥ 40 then "Partial" else "Missing"

/-- `_traditional_clause_match` from `src/utils/scoring_utils.py`.
Returns `(coverage_score, llm_explanation, llm_confidence, matching_method)`. -/
def _traditional_clause_match (clauseText fullTextNormalized : Str)
    (bm25Score e5Score : ℚ) : ℚ × Option String × Option String × String :=
  let _ := clauseText
  let _ := fullTextNormalized
  let bm25Normalized := if bm25Score > 0 then min 1 (bm25Score / 10) else 0
  let traditionalScore := 0.4 * bm25Normalized + 0.6 * e5Score
  (traditionalScore, none, none, "traditional_bm25_e5")

/-- `clauses = [article]` for non-main articles: the article dict itself is
used as the single clause, reading the same keys. -/
def clauseOfArticle (a : Article) : Clause :=
  { id := a.id, label := a.label, path := a.path, text := a.text }

/-- Result record shared by the three categorisation outcomes of the
article-level LLM path (`total_clauses` is always 1 there). -/
def mkArticleLevelResult (band : String) (p : ℚ)
    (cov par mis : List ClauseInfo) (aid : String) (n : Nat) : CoverageResult :=
  { band := some band, coverageType := none, coveragePercentage := p,
    coveredClauses := cov, partiallyCoveredClauses := some par,
    missingClauses := mis, coveredArticleRefs := [], missingArticleRefs := [],
    totalClauses := 1, coveredClausesCount := cov.length,
    partiallyCoveredClausesCount := some par.length,
    missingClausesCount := mis.length, articleId := aid, articleNumber := n }

/-- `article.get('text', '') or ' '.join(clause texts)`, then `.strip()` —
the requirement text used by the article-level LLM path. -/
def rawArticleTextOf (article : Article) (clauses : List Clause) : Str :=
  pyStrip (if article.text = [] then joinTexts (clauses.map (·.text)) else article.text)

/-- `_calculate_article_coverage_llm_article_level` from
`src/utils/scoring_utils.py`: one judge call for the whole article; the
judge score alone becomes the percentage, the BM25+E5 blend is computed only
for the `debug_scores` diagnostics; judge failure falls back to
`_traditional_clause_match` unless `_llm_only_mode` is set, in which case it
raises. -/
def _calculate_article_coverage_llm_article_level (article : Article)
    (fullText fullTextNormalized : Str) (articleNumber : Nat)
    (articleId : String) (clauses : List Clause) (judge : JudgeFn)
    (bm25Score e5Score : ℚ) (llmOnlyMode : Bool) : Except String CoverageResult :=
  let rawArticleText := rawArticleTextOf article clauses
  if rawArticleText = [] then
    .ok { band := some "Missing", coverageType := none, coveragePercentage := 0,
          coveredClauses := [], partiallyCoveredClauses := some [],
          missingClauses := [], coveredArticleRefs := [], missingArticleRefs := [],
          totalClauses := 0, coveredClausesCount := 0,
          partiallyCoveredClausesCount := some 0, missingClausesCount := 0,
          articleId := articleId, articleNumber := articleNumber }
  else
    let articleTextNormalized := normalize_text rawArticleText
    let step : Except String (ℚ × String × Option String × Option String × Option (ℚ × ℚ)) :=
      match judge { clauseText := rawArticleText, pdfText := fullText,
                    articleNumber := articleNumber, clauseLabel := "Article-level" } with
      | some res =>
        let llmScore := res.score
        let bm25Normalized := if bm25Score > 0 then min 1 (bm25Score / 10) else 0
        let traditionalScore := 0.4 * bm25Normalized + 0.6 * e5Score
        .ok (llmScore, "llm_only_scoring_article",
             optStr res.explanation, optStr res.confidence,
             some (llmScore, traditionalScore))
      | none =>
        if llmOnlyMode then
          .error s!"LLM-only mode: LLM failed for Article {articleNumber} (article-level). No fallback allowed in LLM-only mode."
        else
          let (t, _, _, m) :=
            _traditional_clause_match articleTextNormalized fullTextNormalized bm25Score e5Score
          .ok (t, m, none, none, none)
    match step with
    | .error e => .error e
    | .ok (articleCoverage, matchingMethod, llmExplanation, llmConfidence, rawPair) =>
      let coveragePercentage := round2 (articleCoverage * 100)
      let band := bandOfPercentage coveragePercentage
      let clauseLabel := if article.title = "" then s!"Article {articleNumber}" else article.title
      let debug : Option DebugScores := rawPair.map (fun pr =>
        { llmScore := round2 (pr.1 * 100), traditionalScore := round2 (pr.2 * 100),
          traditionalBeforeBoost := some (round2 (pr.2 * 100)),
          finalScore := coveragePercentage,
          mode := if llmOnlyMode then "llm_only" else "hybrid",
          -- the source sets `boost_applied := traditional_score_raw >
          -- traditional_score_before_boost`, and the two are always equal
          boostApplied := false })
      let info0 : ClauseInfo :=
        { id := articleId, articleNumber := articleNumber, label := clauseLabel,
          path := article.path, text := truncate200 rawArticleText,
          coverageScore := coveragePercentage, matchingMethod := matchingMethod,
          debugScores := debug, llmExplanation := llmExplanation,
          llmConfidence := llmConfidence, bandTag := none,
          partialReason := none, missingReason := none }
      if coveragePercentage ≥ 75 then
        .ok (mkArticleLevelResult band coveragePercentage [info0] [] [] articleId articleNumber)
      else if coveragePercentage ≥ 40 then
        let reason := some (llmExplanation.getD
          s!"Article {articleNumber} has partial coverage based on article-level analysis.")
        let info := { info0 with bandTag := some "Partial", partialReason := reason }
        .ok (mkArticleLevelResult band coveragePercentage [] [info] [] articleId articleNumber)
      else
        let reason := some (llmExplanation.getD
          s!"Article {articleNumber} appears missing or very weak based on article-level analysis.")
        let info := { info0 with missingReason := reason }
        .ok (mkArticleLevelResult band coveragePercentage [] [] [info] articleId articleNumber)

/-- The clause-skip test of the per-clause loop:
`if not clause_text or clause_text in ['article', f'article {article_number}']`. -/
def clauseSkipped (articleNumber : Nat) (clauseText : Str) : Bool :=
  clauseText == [] || clauseText == "article".toList
    || clauseText == (s!"article {articleNumber}").toList

/-- One clause's scoring decision inside the per-clause loop of
`calculate_article_coverage`: the LLM call when a judge function is
provided, the strict-mode `RuntimeError`s, and the traditional fallback.
Returns `(clause_coverage, llm_explanation, llm_confidence,
matching_method, (llm_score_raw, traditional_score_raw)?)`. -/
def clauseStep (judgeOpt : Option JudgeFn) (llmOnlyMode : Bool)
    (fullText fullTextNormalized : Str) (articleNumber : Nat)
    (bm25Score e5Score : ℚ) (clause : Clause) (clauseText : Str) :
    Except String (ℚ × Option String × Option String × String × Option (ℚ × ℚ)) :=
  match judgeOpt with
  | some judge =>
    match judge { clauseText := clause.text, pdfText := fullText,
                  articleNumber := articleNumber, clauseLabel := clause.label } with
    | some res =>
      let llmScore := res.score
      let bm25Normalized := if bm25Score > 0 then min 1 (bm25Score / 10) else 0
      let traditionalScore := 0.4 * bm25Normalized + 0.6 * e5Score
      .ok (llmScore, optStr res.explanation, optStr res.confidence,
           "llm_only_scoring", some (llmScore, traditionalScore))
    | none =>
      if llmOnlyMode then
        let lbl := clause.label
        .error s!"LLM-only mode: LLM failed for Article {articleNumber}, Clause {lbl}. No fallback allowed in LLM-only mode."
      else
        let (t, e, c, m) :=
          _traditional_clause_match clauseText fullTextNormalized bm25Score e5Score
        .ok (t, e, c, m, none)
  | none =>
    if llmOnlyMode then
      .error s!"LLM-only mode: LLM function not provided for Article {articleNumber}. Cannot score in LLM-only mode without LLM."
    else
      let (t, e, c, m) :=
        _traditional_clause_match clauseText fullTextNormalized bm25Score e5Score
      .ok (t, e, c, m, none)

/-- The per-clause loop of `calculate_article_coverage` (lines 125–254 of
`scoring_utils.py`): returns the covered / partially-covered / missing
clause judgments and the raw 0–1 clause scores, in clause order, or the
strict-mode `RuntimeError`.  The LLM-only-mode check for a missing judge
function is re-done per clause exactly as in the source. -/
def processClauses (judgeOpt : Option JudgeFn) (llmOnlyMode : Bool)
    (fullText fullTextNormalized : Str) (articleNumber : Nat)
    (bm25Score e5Score : ℚ) :
    List Clause → Except String (List ClauseInfo × List ClauseInfo × List ClauseInfo × List ℚ)
  | [] => .ok ([], [], [], [])
  | clause :: rest =>
    let clauseText := normalize_text clause.text
    if clauseSkipped articleNumber clauseText then
      processClauses judgeOpt llmOnlyMode fullText fullTextNormalized
        articleNumber bm25Score e5Score rest
    else
      match clauseStep judgeOpt llmOnlyMode fullText fullTextNormalized
          articleNumber bm25Score e5Score clause clauseText with
      | .error e => .error e
      | .ok (clauseCoverage, llmExplanation, llmConfidence, matchingMethod, rawPair) =>
        match processClauses judgeOpt llmOnlyMode fullText fullTextNormalized
            articleNumber bm25Score e5Score rest with
        | .error e => .error e
        | .ok (cov, par, mis, scores) =>
          let lbl := clause.label
          let coverageScore := round2 (clauseCoverage * 100)
          let debug : Option DebugScores := rawPair.map (fun pr =>
            { llmScore := round2 (pr.1 * 100), traditionalScore := round2 (pr.2 * 100),
              traditionalBeforeBoost := some (round2 (pr.2 * 100)),
              finalScore := coverageScore,
              mode := if llmOnlyMode then "llm_only" else "hybrid",
              boostApplied := false })
          let info0 : ClauseInfo :=
            { id := clause.id, articleNumber := articleNumber, label := clause.label,
              path := clause.path, text := truncate200 clause.text,
              coverageScore := coverageScore, matchingMethod := matchingMethod,
              debugScores := debug, llmExplanation := llmExplanation,
              llmConfidence := llmConfidence, bandTag := none,
              partialReason := none, missingReason := none }
          if coverageScore ≥ 75 then
            .ok (info0 :: cov, par, mis, clauseCoverage :: scores)
          else if coverageScore ≥ 40 then
            let reason :=
              match llmExplanation with
              | some e =>
                if methodHasLlm matchingMethod then e
                else s!"Partial coverage: some elements of Article {articleNumber}, Label {lbl} are present but incomplete"
              | none =>
                s!"Partial coverage: some elements of Article {articleNumber}, Label {lbl} are present but incomplete"
            .ok (cov,
                 { info0 with bandTag := some "Partial", partialReason := some reason } :: par,
                 mis, clauseCoverage :: scores)
          else
            let reason :=
              match llmExplanation with
              | some e =>
                if methodHasLlm matchingMethod then e
                else s!"Article {articleNumber}, Label {lbl} is missing - no matching content found"
              | none =>
                s!"Article {articleNumber}, Label {lbl} is missing - no matching content found"
            .ok (cov, par,
                 { info0 with missingReason := some reason } :: mis,
                 clauseCoverage :: scores)

/-- The non-article-level branch of `calculate_article_coverage`: the
"no clauses" BM25+E5 branch and the per-clause loop. -/
def coverageViaClauses (article : Article) (fullText fullTextNormalized : Str)
    (articleNumber : Nat) (articleId : String) (clauses : List Clause)
    (judgeOpt : Option JudgeFn) (bm25Score e5Score : ℚ) (llmOnlyMode : Bool) :
    Except String CoverageResult :=
  if clauses = [] then
    -- "no clauses" branch: scored from BM25+E5 directly; note that it
    -- returns the `coverage_type` dict shape and does NOT consult
    -- `_llm_only_mode`
    let bm25Normalized := if bm25Score > 0 then min 1 (bm25Score / 10) else 0
    let coverage := 0.4 * bm25Normalized + 0.6 * e5Score
    let coveragePercentage := round2 (coverage * 100)
    let coverageType :=
      if coveragePercentage ≥ 75 then "covered"
      else if coveragePercentage ≥ 40 then "partially_covered"
      else "missing"
    .ok { band := none, coverageType := some coverageType,
          coveragePercentage := coveragePercentage,
          coveredClauses := [], partiallyCoveredClauses := none,
          missingClauses := [],
          coveredArticleRefs := if coveragePercentage < 40 then [] else [article],
          missingArticleRefs := if coveragePercentage < 40 then [article] else [],
          totalClauses := 1,
          coveredClausesCount := if coveragePercentage ≥ 40 then 1 else 0,
          partiallyCoveredClausesCount := none,
          missingClausesCount := if coveragePercentage ≥ 40 then 0 else 1,
          articleId := articleId, articleNumber := articleNumber }
  else
    match processClauses judgeOpt llmOnlyMode fullText
        fullTextNormalized articleNumber bm25Score e5Score clauses with
    | .error e => .error e
    | .ok (cov, par, mis, scores) =>
      let totalClauses := scores.length
      let coveragePercentage :=
        if totalClauses > 0 then round2 ((scores.sum / totalClauses) * 100) else 0
      .ok { band := some (bandOfPercentage coveragePercentage),
            coverageType := none, coveragePercentage := coveragePercentage,
            coveredClauses := cov, partiallyCoveredClauses := some par,
            missingClauses := mis, coveredArticleRefs := [],
            missingArticleRefs := [], totalClauses := totalClauses,
            coveredClausesCount := cov.length,
            partiallyCoveredClausesCount := some par.length,
            missingClausesCount := mis.length,
            articleId := articleId, articleNumber := articleNumber }

/-- `calculate_article_coverage` from `src/utils/scoring_utils.py`.
`extractedText` is the list of page texts; `llmOnlyMode` threads the
process-global `_llm_only_mode` flag. -/
def calculate_article_coverage (article : Article) (extractedText : List Str)
    (pdplArticles : List Article) (llmClauseMatchFunc : Option JudgeFn)
    (bm25Score e5Score : ℚ) (llmOnlyMode : Bool) : Except String CoverageResult :=
  -- `pdpl_articles` is a parameter of the source function but is never read
  let _ := pdplArticles
  let fullText := joinTexts extractedText
  let fullTextNormalized := normalize_text fullText
  let articleNumber := article.articleNumber
  let articleId := article.id
  let isMainArticle := article.isMainArticle
  let clauses := if isMainArticle then article.clauses else [clauseOfArticle article]
  match llmClauseMatchFunc, isMainArticle with
  | some judge, true =>
    _calculate_article_coverage_llm_article_level article fullText
      fullTextNormalized articleNumber articleId clauses judge
      bm25Score e5Score llmOnlyMode
  | _, _ =>
    coverageViaClauses article fullText fullTextNormalized articleNumber
      articleId clauses llmClauseMatchFunc bm25Score e5Score llmOnlyMode

/-! ## Aggregator (`calculate_overall_score` in `src/utils/scoring_utils.py`) -/

/-- One entry of the `matches` list fed to the aggregator: the keys it reads
via `match.get('article_number', 0)`, `match.get('coverage_percentage', 0)`
and `match.get('band', 'Missing')`. -/
structure MatchRec where
  articleNumber : Nat
  coveragePercentage : ℚ
  band : Option String
deriving DecidableEq

/-- `INCLUDED_ARTICLES_FOR_OVERALL` (module constant of `scoring_utils`). -/
def includedArticlesForOverall : List Nat := [4, 5, 10, 11, 12, 13, 15, 20, 25, 26, 29]

/-- `GOV_ONLY_ARTICLES` (module constant of `scoring_utils`, empty). -/
def govOnlyArticles : List Nat := []

/-- The per-match filter of the aggregator loops: skip when the include-list
is non-empty and does not contain the article, or when the article is
government-only. -/
def articleAllowed (n : Nat) : Bool :=
  (includedArticlesForOverall.isEmpty || includedArticlesForOverall.contains n)
    && !(govOnlyArticles.contains n)

/-- The scope-filtering step applied to `all_article_numbers`. -/
def scopeFiltered (scope : List Nat) : List Nat :=
  if includedArticlesForOverall.isEmpty then
    scope.filter (fun n => !(govOnlyArticles.contains n))
  else
    scope.filter (fun n => includedArticlesForOverall.contains n)

/-- The first aggregation loop: build `article_scores` and `article_bands`
(dict with insertion order, first occurrence per article number wins),
represented as one association list `(number, coverage, band)`. -/
def buildScores : List MatchRec → List (Nat × ℚ × String) → List (Nat × ℚ × String)
  | [], acc => acc
  | m :: rest, acc =>
    if articleAllowed m.articleNumber then
      if acc.any (fun e => e.1 == m.articleNumber) then buildScores rest acc
      else buildScores rest (acc ++ [(m.articleNumber, m.coveragePercentage, m.band.getD "Missing")])
    else buildScores rest acc

/-- The second aggregation loop (`unique_articles_by_band`), identical
filters and first-occurrence rule. -/
def buildBands : List MatchRec → List (Nat × String) → List (Nat × String)
  | [], acc => acc
  | m :: rest, acc =>
    if articleAllowed m.articleNumber then
      if acc.any (fun e => e.1 == m.articleNumber) then buildBands rest acc
      else buildBands rest (acc ++ [(m.articleNumber, m.band.getD "Missing")])
    else buildBands rest acc

/-- Insertion step of an ascending sort on naturals (Python `sorted`). -/
def insertAscNat (n : Nat) : List Nat → List Nat
  | [] => [n]
  | m :: ms => if m ≤ n then m :: insertAscNat n ms else n :: m :: ms

/-- Python `sorted` on a list of naturals. -/
def sortNats (l : List Nat) : List Nat := l.foldr insertAscNat []

/-- The report dict returned by `calculate_overall_score`.  The early
(empty-`matches`) return carries no `covered_articles` /
`partially_covered_articles` / `low_coverage_articles` keys, hence the
`Option`s. -/
structure OverallReport where
  overallScore : ℚ
  complianceLevel : String
  totalArticles : Nat
  articlesAnalyzed : Nat
  coveredCount : Nat
  coveredArticles : Option (List Nat)
  partiallyCoveredCount : Nat
  partiallyCoveredArticles : Option (List Nat)
  lowCoverageCount : Nat
  lowCoverageArticles : Option (List Nat)
  missingCount : Nat
  missingArticles : List Nat
  averageArticleCoverage : ℚ
deriving DecidableEq

/-- `calculate_overall_score` from `src/utils/scoring_utils.py`.
`allArticleNumbers = none` models the `all_article_numbers=None` default
(PDPL range 2–45).  Python raises `ZeroDivisionError` when the filtered
scope is empty while `matches` is not; this is the `.error` case. -/
def calculate_overall_score (matchList : List MatchRec)
    (allArticleNumbers : Option (List Nat)) : Except String OverallReport :=
  let scope :=
    match allArticleNumbers with
    | none => List.range' 2 44
    | some l => l
  let scopeF := scopeFiltered scope
  let totalArticles := scopeF.length
  if matchList.isEmpty then
    .ok { overallScore := 0, complianceLevel := "Critical",
          totalArticles := totalArticles, articlesAnalyzed := 0,
          coveredCount := 0, coveredArticles := none,
          partiallyCoveredCount := 0, partiallyCoveredArticles := none,
          lowCoverageCount := 0, lowCoverageArticles := none,
          missingCount := totalArticles, missingArticles := scopeF,
          averageArticleCoverage := 0 }
  else
    let scores := buildScores matchList []
    let totalCoverage := (scores.map (fun e => e.2.1)).sum
    if totalArticles = 0 then
      .error "ZeroDivisionError: division by zero"
    else
      let overallScore := round2 (totalCoverage / (totalArticles : ℚ))
      let bands := buildBands matchList []
      let coveredArticles := sortNats ((bands.filter (fun e => e.2 == "Full")).map (·.1))
      let partiallyCoveredArticles :=
        sortNats ((bands.filter (fun e => e.2 == "Partial")).map (·.1))
      let lowCoverageArticles :=
        sortNats ((bands.filter (fun e => e.2 == "Missing")).map (·.1))
      let found := scores.map (·.1)
      let missingArticles := sortNats (scopeF.filter (fun n => !(found.contains n)))
      let complianceLevel :=
        if overallScore ≥ 75 then "compliant"
        else if overallScore ≥ 40 then "partially_compliant"
        else "not_compliant"
      .ok { overallScore := overallScore, complianceLevel := complianceLevel,
            totalArticles := totalArticles, articlesAnalyzed := scores.length,
            coveredCount := coveredArticles.length,
            coveredArticles := some coveredArticles,
            partiallyCoveredCount := partiallyCoveredArticles.length,
            partiallyCoveredArticles := some partiallyCoveredArticles,
            lowCoverageCount := lowCoverageArticles.length,
            lowCoverageArticles := some lowCoverageArticles,
            missingCount := missingArticles.length,
            missingArticles := missingArticles,
            averageArticleCoverage :=
              if scores.isEmpty then 0
              else round2 (totalCoverage / (scores.length : ℚ)) }

/-! ## LLM re-rank stage (`llm_rerank_articles` in `src/services/llm_service.py`)

The OpenAI transport and the defensive JSON/regex parsing are the excluded
judge adapter; `parsedScores` is the list of scores that parsing produced
(empty on any parse failure), and `llmAvailable` models
`model_manager.llm_enabled and model_manager.openai_client`. -/

/-- A retrieval candidate dict as read by `llm_rerank_articles`
(`e5_similarity`, `similarity`, `llm_relevance_score`, `final_score` are
read through `.get`, hence `Option`s). -/
structure RerankCand where
  article : Article
  bm25Score : Option ℚ
  e5Similarity : Option ℚ
  similarity : Option ℚ
  llmRelevanceScore : Option ℚ
  finalScore : Option ℚ
deriving DecidableEq

/-- `cand.get("e5_similarity", cand.get("similarity", 0.5))` — the default
used for candidates that received a parsed score. -/
def e5ForScored (c : RerankCand) : ℚ := c.e5Similarity.getD (c.similarity.getD 0.5)

/-- `cand.get("e5_similarity", cand.get("similarity", 0))` — the default
used for candidates without a parsed score and for the tail beyond top-50. -/
def e5ForUnscored (c : RerankCand) : ℚ := c.e5Similarity.getD (c.similarity.getD 0)

/-- The `for i, cand in enumerate(candidates_to_rank)` loop: candidates with
`i < len(scores)` get `final_score = 0.7*(score/100) + 0.3*e5`, the rest get
their embedding score. -/
def applyScoresAux (scores : List ℚ) : Nat → List RerankCand → List RerankCand
  | _, [] => []
  | i, c :: cs =>
    (if h : i < scores.length then
      let s := scores.get ⟨i, h⟩
      { c with llmRelevanceScore := some (s / 100),
               finalScore := some (0.7 * (s / 100) + 0.3 * e5ForScored c) }
     else
      { c with finalScore := some (e5ForUnscored c) })
    :: applyScoresAux scores (i + 1) cs

/-- Score application over the top-50 slice. -/
def applyScores (toRank : List RerankCand) (scores : List ℚ) : List RerankCand :=
  applyScoresAux scores 0 toRank

/-- Sort key `x.get("final_score", 0)`. -/
def keyFinal (c : RerankCand) : ℚ := c.finalScore.getD 0

/-- Stable insertion into a descending-sorted list (equal keys keep their
original relative order, like Python's stable `sort`). -/
def insertDescBy {α} (key : α → ℚ) (x : α) : List α → List α
  | [] => [x]
  | y :: ys => if key x ≤ key y then y :: insertDescBy key x ys else x :: y :: ys

/-- Python's stable `list.sort(key=..., reverse=True)`. -/
def sortDescBy {α} (key : α → ℚ) (l : List α) : List α :=
  l.foldl (fun acc x => insertDescBy key x acc) []

/-- The scored top-50 slice `candidates[:min(50, len(candidates))]` with
LLM scores applied. -/
def rerankRanked (candidates : List RerankCand) (scores : List ℚ) : List RerankCand :=
  applyScores (candidates.take (min 50 candidates.length)) scores

/-- The tail beyond the top-50: `final_score` set to the embedding score. -/
def rerankRemaining (candidates : List RerankCand) : List RerankCand :=
  (candidates.drop (candidates.take (min 50 candidates.length)).length).map
    (fun c => { c with finalScore := some (e5ForUnscored c) })

/-- `llm_rerank_articles` from `src/services/llm_service.py`, with the LLM
call and parsing abstracted into `parsedScores` (see section header). -/
def llm_rerank_articles (llmAvailable : Bool) (parsedScores : List ℚ)
    (candidates : List RerankCand) (topK : Nat) : List RerankCand :=
  if !llmAvailable then candidates.take topK
  else if candidates.length = 0 then []
  else if parsedScores.isEmpty then candidates.take topK
  else
    (sortDescBy keyFinal (rerankRanked candidates parsedScores)
      ++ rerankRemaining candidates).take topK

/-! ## Matching service (`match_with_pdpl` in `src/services/matching_service.py`)

`hybrid_retrieval_bm25_e5` (BM25/Qdrant/E5 backed) and
`match_with_pdpl_text` (difflib `SequenceMatcher` similarity) are the
retrieval collaborators; their outputs enter here as the `semanticMatches`
and `textMatches` lists, exactly the shape the combination stage consumes. -/

/-- A match dict from either retrieval path, with the keys read by
`match_with_pdpl`. -/
structure RetMatch where
  article : Article
  similarity : Option ℚ
  matchType : String
  bm25Score : Option ℚ
  e5Score : Option ℚ
  e5Similarity : Option ℚ
  keywordOverlap : Option ℚ
deriving DecidableEq

/-- `article.get("id") or article.get("article_id")`; our article model has
the single `id` key (the loader always sets it), so the `article_id`
fallback of the source collapses to `none` when `id` is empty/falsy. -/
def getArticleKey (a : Article) : Option String := if a.id = "" then none else some a.id

/-- First combination loop: semantic/hybrid matches pass the absolute
`MINIMUM_SIMILARITY = 0.70` floor and are deduplicated by
`(article_id, article_number)`. Returns the accepted matches and the final
`seen_keys`. -/
def addSemanticMatches :
    List RetMatch → List (Option String × Nat) → List RetMatch × List (Option String × Nat)
  | [], seen => ([], seen)
  | m :: rest, seen =>
    if m.similarity.getD 0 < 0.70 then addSemanticMatches rest seen
    else
      let key := (getArticleKey m.article, m.article.articleNumber)
      if seen.contains key then addSemanticMatches rest seen
      else
        let (ms, seen') := addSemanticMatches rest (seen ++ [key])
        (m :: ms, seen')

/-- Second combination loop: text-fallback matches not already seen are
added when `match["similarity"] >= threshold`. -/
def addTextMatches (threshold : ℚ) :
    List RetMatch → List (Option String × Nat) → List RetMatch
  | [], _ => []
  | m :: rest, seen =>
    let key := (getArticleKey m.article, m.article.articleNumber)
    if !(seen.contains key) ∧ m.similarity.getD 0 ≥ threshold then
      m :: addTextMatches threshold rest (seen ++ [key])
    else addTextMatches threshold rest seen

/-- Lines 113–164 of `matching_service.py`: the `combined_matches` list for
which (and only for which) `match_with_pdpl` computes coverage records. -/
def combinedMatchesOf (semanticMatches textMatchesAll : List RetMatch)
    (useTextFallback : Bool) (threshold : ℚ) : List RetMatch :=
  let textMatches := if useTextFallback then textMatchesAll else []
  let (semMs, seen) := addSemanticMatches semanticMatches []
  let txtMs := if useTextFallback then addTextMatches threshold textMatches seen else []
  semMs ++ txtMs

/-- Effectful map over `Except` (the coverage loop can raise in strict
mode). -/
def mapExcept {α β ε : Type} (f : α → Except ε β) : List α → Except ε (List β)
  | [] => .ok []
  | x :: xs =>
    match f x with
    | .error e => .error e
    | .ok y =>
      match mapExcept f xs with
      | .error e => .error e
      | .ok ys => .ok (y :: ys)

/-- `match_with_pdpl` from `src/services/matching_service.py`: combine the
two retrieval result lists, then compute one coverage record per combined
match (BM25 score from `bm25_score`, E5 score from
`e5_score`/`e5_similarity`), then sort by coverage percentage descending.
In the source the coverage dict is merged into the match dict; here the
pair is kept. -/
def match_with_pdpl (extractedText : List Str) (pdplArticles : List Article)
    (semanticMatches textMatches : List RetMatch) (judge : Option JudgeFn)
    (llmOnlyMode : Bool) (threshold : ℚ) (useTextFallback : Bool) :
    Except String (List (RetMatch × CoverageResult)) :=
  let combined := combinedMatchesOf semanticMatches textMatches useTextFallback threshold
  match mapExcept (fun m =>
      let bm25 := m.bm25Score.getD 0
      let e5 :=
        match m.e5Score with
        | some v => v
        | none => m.e5Similarity.getD 0
      match calculate_article_coverage m.article extractedText pdplArticles
          judge bm25 e5 llmOnlyMode with
      | .error e => .error e
      | .ok cov => .ok (m, cov)) combined with
  | .error e => .error e
  | .ok results => .ok (sortDescBy (fun p => p.2.coveragePercentage) results)

/-! ## Verified properties

Concrete fixtures used by the counterexamples and witnesses below. -/

/-- A one-page extracted document. -/
def pageDoc : List Str := ["doc".toList]

/-- A clause-level (non-main) article entry, as fed to the scorer by the
LLM-only matching path for individual clauses. -/
def articleNonMain : Article :=
  { id := "PDPL:7:a", articleNumber := 7, label := "a",
    text := "right of access".toList, path := "7/a",
    isMainArticle := false, title := "", clauses := [] }

/-- A main article whose own `text` field is set and whose clause list is
empty. -/
def articleMain : Article :=
  { id := "PDPL:11", articleNumber := 11, label := "0",
    text := "data collection methods".toList, path := "11",
    isMainArticle := true, title := "", clauses := [] }

/-- A judge that always answers with the given 0–1 score. -/
def judgeConst (q : ℚ) : JudgeFn :=
  fun _ => some { score := q, explanation := "ok", confidence := "high" }

/-- A judge that always fails (adapter returned `None`). -/
def judgeAbsent : JudgeFn := fun _ => none

/-- **C2** (counterexample).  `normalize_text` is *not* idempotent: on
`"a , b"` the first pass lowercases/collapses and then deletes the comma,
leaving the double space `"a  b"`, which a second pass collapses to
`"a b"`. -/
theorem c2_counterexample :
    normalize_text (normalize_text "a , b".toList) ≠ normalize_text "a , b".toList := by
  decide

/-- **C2** (amended).  `normalize_text` is idempotent from the second
application on: stripping the non-word characters can create new doubled /
leading / trailing spaces, but one further pass (which only re-strips and
re-collapses whitespace) reaches a fixed point. -/
theorem c2_normalize_stable_after_two (s : Str) :
    normalize_text (normalize_text (normalize_text s)) =
      normalize_text (normalize_text s) := by
  rw [normalize_normalize_eq (normalize_text s), normalize_normalize_eq s,
    stripCollapse_idem]

/-- **C9** (counterexample).  On an empty coverage-record list the
aggregator does return a well-formed zero report, but its compliance level
is the hard-coded string `"Critical"`, not the documented mapping's
`"not_compliant"`; and scoped articles outside the hard-coded include-list
(here article 2) are dropped from `missing_articles`. -/
theorem c9_counterexample :
    ∃ r, calculate_overall_score [] (some [2, 4]) = .ok r
      ∧ r.complianceLevel = "Critical"
      ∧ r.complianceLevel ≠ "not_compliant"
      ∧ r.missingArticles = [4] := by
  refine ⟨_, rfl, rfl, by decide, by decide⟩

/-- **C9** (amended).  On an empty coverage-record list the aggregator
returns a well-formed zero-coverage report rather than raising:
`overall_score` is `0.0`, every scoped article *surviving the include-list
filter* is listed as missing, and `compliance_level` is the early-return
constant `"Critical"` (not the `"not_compliant"` label of the documented
`<40` mapping). -/
theorem c9_empty_matches_report (scope : List Nat) :
    ∃ r, calculate_overall_score [] (some scope) = .ok r
      ∧ r.overallScore = 0
      ∧ r.missingArticles = scopeFiltered scope
      ∧ r.missingCount = (scopeFiltered scope).length
      ∧ r.complianceLevel = "Critical" := by
  exact ⟨_, rfl, rfl, rfl, rfl, rfl⟩

theorem articleAllowed_of_included {n : Nat}
    (h : n ∈ includedArticlesForOverall) : articleAllowed n = true := by
  fin_cases h <;> decide

theorem buildScores_eq :
    ∀ (ms : List MatchRec) (acc : List (Nat × ℚ × String)),
    (ms.map (fun m => m.articleNumber)).Nodup →
    (∀ m ∈ ms, articleAllowed m.articleNumber = true) →
    (∀ m ∈ ms, ∀ e ∈ acc, e.1 ≠ m.articleNumber) →
    buildScores ms acc
      = acc ++ ms.map (fun m => (m.articleNumber, m.coveragePercentage, m.band.getD "Missing"))
  | [], acc, _, _, _ => by simp [buildScores]
  | m :: rest, acc, hnd, hall, hdisj => by
    unfold buildScores
    rw [if_pos (hall m (List.mem_cons_self m rest))]
    have hnotin : (acc.any (fun e => e.1 == m.articleNumber)) = false := by
      rw [List.any_eq_false]
      intro e he
      simpa using hdisj m (List.mem_cons_self m rest) e he
    rw [hnotin]
    simp only [Bool.false_eq_true, if_false]
    have hnd' : (rest.map (fun m => m.articleNumber)).Nodup := by
      simpa using hnd.of_cons
    have hhead : ∀ m' ∈ rest, m'.articleNumber ≠ m.articleNumber := by
      have := List.nodup_cons.mp (show (m.articleNumber ::
        rest.map (fun m => m.articleNumber)).Nodup by simpa using hnd)
      intro m' hm' hcontra
      exact this.1 (by
        simp only [List.mem_map]
        exact ⟨m', hm', hcontra⟩)
    rw [buildScores_eq rest
      (acc ++ [(m.articleNumber, m.coveragePercentage, m.band.getD "Missing")])
      hnd' (fun m' hm' => hall m' (List.mem_cons_of_mem _ hm'))
      (by
        intro m' hm' e he
        rcases List.mem_append.mp he with h' | h'
        · exact hdisj m' (List.mem_cons_of_mem _ hm') e h'
        · rcases List.mem_singleton.mp h' with rfl
          exact fun hcontra => hhead m' hm' (by simpa using hcontra.symm))]
    simp


theorem round2_zero : round2 0 = 0 := by
  norm_num [round2, roundHalfEven]

/-- **C1** (counterexample).  The aggregator's denominator (and its
numerator's membership filter) is the scope *after* intersection with the
hard-coded `INCLUDED_ARTICLES_FOR_OVERALL` list, not the full scope set:
for scope `{2, 4}` (article 2 is not in the include-list) and one record
for article 4 at 50%, the reported overall score is `50.0`, not the
claimed `sum/len(scope) = 50/2 = 25.0`. -/
theorem c1_counterexample :
    ∃ r, calculate_overall_score
        [{ articleNumber := 4, coveragePercentage := 50, band := some "Partial" }]
        (some [2, 4]) = .ok r
      ∧ r.overallScore = 50
      ∧ r.overallScore ≠ round2 ((50 : ℚ) / 2) := by
  refine ⟨_, rfl, ?_, ?_⟩
  · show round2 _ = 50
    norm_num [buildScores, scopeFiltered, articleAllowed,
      includedArticlesForOverall, govOnlyArticles, round2, roundHalfEven]
  · show round2 _ ≠ _
    norm_num [buildScores, scopeFiltered, articleAllowed,
      includedArticlesForOverall, govOnlyArticles, round2, roundHalfEven]

/-- **C1** (amended).  For every record list (with distinct article numbers,
all inside the configured include-list) and scope set whose include-list
filtrate is non-empty, `calculate_overall_score` returns
`overall_score = round₂(Σ found coverage / |scope ∩ includeList|)` — missing
scoped articles contribute zero to the numerator but stay in the (filtered)
denominator.  In particular the end-to-end scenario holds as stated: scope
`{4,5,10}` with only article 4 found at 90% (band Full) yields
`overall_score = 30.0`, `missing_articles = [5,10]`,
`covered_articles = [4]`, `compliance_level = "not_compliant"`. -/
theorem c1_overall_score_formula :
    (∀ (matchList : List MatchRec) (scope : List Nat),
      (matchList.map (fun m => m.articleNumber)).Nodup →
      (∀ m ∈ matchList, m.articleNumber ∈ includedArticlesForOverall) →
      scopeFiltered scope ≠ [] →
      ∃ r, calculate_overall_score matchList (some scope) = .ok r
        ∧ r.overallScore
            = round2 ((matchList.map (fun m => m.coveragePercentage)).sum
                / ((scopeFiltered scope).length : ℚ)))
    ∧ (∃ r, calculate_overall_score
          [{ articleNumber := 4, coveragePercentage := 90, band := some "Full" }]
          (some [4, 5, 10]) = .ok r
        ∧ r.overallScore = 30
        ∧ r.missingArticles = [5, 10]
        ∧ r.coveredArticles = some [4]
        ∧ r.complianceLevel = "not_compliant") := by
  constructor
  · intro matchList scope hnd hincl hscope
    cases matchList with
    | nil =>
      refine ⟨_, rfl, ?_⟩
      simp only [List.map_nil, List.sum_nil, zero_div, round2_zero]
    | cons m ms =>
      have hlen : ¬((scopeFiltered scope).length = 0) := by
        simpa [List.length_eq_zero] using hscope
      have hbs := buildScores_eq (m :: ms) [] hnd
        (fun m' hm' => articleAllowed_of_included (hincl m' hm'))
        (by intro m' _ e he; simp at he)
      unfold calculate_overall_score
      simp only [List.isEmpty_cons, Bool.false_eq_true, if_false, hbs,
        List.nil_append, if_neg hlen]
      refine ⟨_, rfl, ?_⟩
      simp [List.map_map, Function.comp_def]
  · refine ⟨_, rfl, ?_, ?_, ?_, ?_⟩
    · show round2 _ = 30
      norm_num [buildScores, scopeFiltered, articleAllowed,
        includedArticlesForOverall, govOnlyArticles, round2, roundHalfEven]
    · decide
    · decide
    · show (if round2 _ ≥ 75 then "compliant"
        else if round2 _ ≥ 40 then "partially_compliant"
        else "not_compliant") = "not_compliant"
      norm_num [buildScores, scopeFiltered, articleAllowed,
        includedArticlesForOverall, govOnlyArticles, round2, roundHalfEven]

/-- Witness for `c1_overall_score_formula`: the general formula applied to
the end-to-end scenario input. -/
theorem c1_overall_score_formula_witness :
    ∃ r, calculate_overall_score
        [{ articleNumber := 4, coveragePercentage := 90, band := some "Full" }]
        (some [4, 5, 10]) = .ok r
      ∧ r.overallScore = round2 ((90 : ℚ) / 3) := by
  obtain ⟨r, hr, hs⟩ := c1_overall_score_formula.1
    [{ articleNumber := 4, coveragePercentage := 90, band := some "Full" }]
    [4, 5, 10] (by decide) (by decide) (by decide)
  refine ⟨r, hr, ?_⟩
  rw [hs]
  norm_num [scopeFiltered, includedArticlesForOverall, govOnlyArticles]

theorem applyScoresAux_get? (scores : List ℚ) :
    ∀ (l : List RerankCand) (base i : Nat) (c : RerankCand),
    l.get? i = some c →
    (applyScoresAux scores base l).get? i
      = some (if base + i < scores.length then
          { c with llmRelevanceScore := some (scores.getD (base + i) 0 / 100),
                   finalScore := some (0.7 * (scores.getD (base + i) 0 / 100)
                     + 0.3 * e5ForScored c) }
        else { c with finalScore := some (e5ForUnscored c) })
  | [], _, i, c, h => by simp at h
  | x :: xs, base, 0, c, h => by
    rw [List.get?_cons_zero, Option.some_inj] at h
    subst h
    unfold applyScoresAux
    rw [List.get?_cons_zero, Option.some_inj]
    by_cases hb : base < scores.length
    · rw [dif_pos hb, if_pos (by omega : base + 0 < scores.length)]
      have : scores.get ⟨base, hb⟩ = scores.getD (base + 0) 0 := by
        simp [List.getD_eq_getElem?_getD, List.getElem?_eq_getElem hb,
          List.get_eq_getElem]
      rw [this]
    · rw [dif_neg hb, if_neg (by omega : ¬(base + 0 < scores.length))]
  | x :: xs, base, i + 1, c, h => by
    rw [List.get?_cons_succ] at h
    unfold applyScoresAux
    rw [List.get?_cons_succ]
    have := applyScoresAux_get? scores xs (base + 1) i c h
    rw [this]
    have harith : base + 1 + i = base + (i + 1) := by omega
    rw [harith]

/-- A candidate with embedding similarity 0.6 (used in the C7 scenario). -/
def rerankCand06 : RerankCand :=
  { article := articleMain, bm25Score := some 3, e5Similarity := some 0.6,
    similarity := some 0.6, llmRelevanceScore := none, finalScore := none }

/-- **C7** (confirmed).  In the LLM re-rank stage, the candidate at position
`i` of the ranked top-50 slice gets
`final_score = 0.7·(score/100) + 0.3·e5` when a parsed score exists at `i`;
candidates past the parsed-score list keep their embedding score, and so
does the whole tail beyond the top-50 slice; with embedding score `0.6` and
judge relevance `80` the blend is `0.74`. -/
theorem c7_rerank_blend :
    (∀ (toRank : List RerankCand) (scores : List ℚ) (i : Nat) (c : RerankCand),
      toRank.get? i = some c → i < scores.length →
      (applyScores toRank scores).get? i
        = some { c with llmRelevanceScore := some (scores.getD i 0 / 100),
                        finalScore := some (0.7 * (scores.getD i 0 / 100)
                          + 0.3 * e5ForScored c) })
    ∧ (∀ (toRank : List RerankCand) (scores : List ℚ) (i : Nat) (c : RerankCand),
      toRank.get? i = some c → scores.length ≤ i →
      (applyScores toRank scores).get? i
        = some { c with finalScore := some (e5ForUnscored c) })
    ∧ (∀ (candidates : List RerankCand) (i : Nat) (c : RerankCand),
      (candidates.drop (candidates.take (min 50 candidates.length)).length).get? i
          = some c →
      (rerankRemaining candidates).get? i
        = some { c with finalScore := some (e5ForUnscored c) })
    ∧ ((applyScores [rerankCand06] [80]).get? 0
        = some { rerankCand06 with llmRelevanceScore := some 0.8,
                                   finalScore := some 0.74 }) := by
  refine ⟨?_, ?_, ?_, ?_⟩
  · intro toRank scores i c hc hi
    have := applyScoresAux_get? scores toRank 0 i c hc
    rw [applyScores, this, if_pos (by omega : 0 + i < scores.length)]
    simp only [Nat.zero_add]
  · intro toRank scores i c hc hi
    have := applyScoresAux_get? scores toRank 0 i c hc
    rw [applyScores, this, if_neg (by omega : ¬(0 + i < scores.length))]
  · intro candidates i c hc
    unfold rerankRemaining
    rw [List.get?_map, hc]
    rfl
  · have h := applyScoresAux_get? [(80 : ℚ)] [rerankCand06] 0 0 rerankCand06 rfl
    rw [applyScores, h, if_pos (by norm_num)]
    have : ([(80 : ℚ)].getD (0 + 0) 0) = 80 := rfl
    rw [this]
    simp only [Option.some_inj]
    congr 1 <;> norm_num [e5ForScored, rerankCand06]

/-- Witness for `c7_rerank_blend`: the blend formula applied to the
single-candidate, single-score instance. -/
theorem c7_rerank_blend_witness :
    (applyScores [rerankCand06] [(80 : ℚ)]).get? 0
      = some { rerankCand06 with
          llmRelevanceScore := some (([(80 : ℚ)].getD 0 0) / 100),
          finalScore := some (0.7 * (([(80 : ℚ)].getD 0 0) / 100)
            + 0.3 * e5ForScored rerankCand06) } :=
  c7_rerank_blend.1 [rerankCand06] [(80 : ℚ)] 0 rerankCand06 rfl (by norm_num)

theorem traditional_fst (ct ftn : Str) (bm25 e5 : ℚ) :
    (_traditional_clause_match ct ftn bm25 e5).1
      = 0.4 * (if bm25 > 0 then min 1 (bm25 / 10) else 0) + 0.6 * e5 := rfl

theorem blend_bounds {bm25 e5 : ℚ} (he0 : 0 ≤ e5) (he1 : e5 ≤ 1) :
    0 ≤ 0.4 * (if bm25 > 0 then min 1 (bm25 / 10) else (0 : ℚ)) + 0.6 * e5
      ∧ 0.4 * (if bm25 > 0 then min 1 (bm25 / 10) else (0 : ℚ)) + 0.6 * e5 ≤ 1 := by
  have hrange : 0 ≤ (if bm25 > 0 then min 1 (bm25 / 10) else (0 : ℚ))
      ∧ (if bm25 > 0 then min 1 (bm25 / 10) else (0 : ℚ)) ≤ 1 := by
    split
    · exact ⟨le_min (by norm_num) (by positivity), min_le_left _ _⟩
    · norm_num
  constructor <;> nlinarith [hrange.1, hrange.2]

theorem round2_percent_bounds {q : ℚ} (h0 : 0 ≤ q) (h1 : q ≤ 1) :
    0 ≤ round2 (q * 100) ∧ round2 (q * 100) ≤ 100 :=
  ⟨round2_nonneg (by positivity), round2_le_100 (by nlinarith)⟩

theorem clauseStep_ok_bounds {judgeOpt : Option JudgeFn} {llmOnly : Bool}
    {ft ftn : Str} {n : Nat} {bm25 e5 : ℚ} {clause : Clause} {ct : Str}
    {out : ℚ × Option String × Option String × String × Option (ℚ × ℚ)}
    (he0 : 0 ≤ e5) (he1 : e5 ≤ 1)
    (hj : ∀ j, judgeOpt = some j → ∀ q res, j q = some res →
      0 ≤ res.score ∧ res.score ≤ 1)
    (h : clauseStep judgeOpt llmOnly ft ftn n bm25 e5 clause ct = .ok out) :
    0 ≤ out.1 ∧ out.1 ≤ 1 := by
  have htrad : ∀ heq : (_traditional_clause_match ct ftn bm25 e5).1 = out.1,
      0 ≤ out.1 ∧ out.1 ≤ 1 := by
    intro heq
    rw [← heq]
    simpa [traditional_fst] using blend_bounds he0 he1
  cases judgeOpt with
  | none =>
    cases llmOnly with
    | true => simp [clauseStep] at h
    | false =>
      simp only [clauseStep, Bool.false_eq_true, if_false] at h
      injection h with h'
      exact htrad (by rw [← h'])
  | some j =>
    cases hq : j { clauseText := clause.text, pdfText := ft,
                   articleNumber := n, clauseLabel := clause.label } with
    | some res =>
      simp only [clauseStep, hq, Except.ok.injEq] at h
      rw [← h]
      exact hj j rfl _ res hq
    | none =>
      cases llmOnly with
      | true => simp [clauseStep, hq] at h
      | false =>
        simp only [clauseStep, hq, Bool.false_eq_true, if_false] at h
        injection h with h'
        exact htrad (by rw [← h'])

theorem processClauses_bounds {judgeOpt : Option JudgeFn} {llmOnly : Bool}
    {ft ftn : Str} {n : Nat} {bm25 e5 : ℚ}
    (he0 : 0 ≤ e5) (he1 : e5 ≤ 1)
    (hj : ∀ j, judgeOpt = some j → ∀ q res, j q = some res →
      0 ≤ res.score ∧ res.score ≤ 1) :
    ∀ (cs : List Clause) {cov par mis : List ClauseInfo} {scores : List ℚ},
    processClauses judgeOpt llmOnly ft ftn n bm25 e5 cs = .ok (cov, par, mis, scores) →
    (∀ s ∈ scores, 0 ≤ s ∧ s ≤ 1)
    ∧ (∀ ci ∈ cov ++ par ++ mis, 0 ≤ ci.coverageScore ∧ ci.coverageScore ≤ 100)
  | [], cov, par, mis, scores, h => by
    simp only [processClauses, Except.ok.injEq, Prod.mk.injEq] at h
    obtain ⟨h1, h2, h3, h4⟩ := h
    subst h1; subst h2; subst h3; subst h4
    simp
  | c :: rest, cov, par, mis, scores, h => by
    unfold processClauses at h
    by_cases hsk : clauseSkipped n (normalize_text c.text) = true
    · rw [if_pos hsk] at h
      exact processClauses_bounds he0 he1 hj rest h
    · rw [if_neg hsk] at h
      cases hstep : clauseStep judgeOpt llmOnly ft ftn n bm25 e5 c
          (normalize_text c.text) with
      | error e => rw [hstep] at h; simp at h
      | ok out =>
        obtain ⟨q, oe, oc, m, rp⟩ := out
        rw [hstep] at h
        cases hrec : processClauses judgeOpt llmOnly ft ftn n bm25 e5 rest with
        | error e => rw [hrec] at h; simp at h
        | ok out2 =>
          obtain ⟨cov', par', mis', scores'⟩ := out2
          rw [hrec] at h
          dsimp only at h
          have hqb : 0 ≤ q ∧ q ≤ 1 := clauseStep_ok_bounds he0 he1 hj hstep
          have hsb := round2_percent_bounds hqb.1 hqb.2
          have ih := processClauses_bounds he0 he1 hj rest hrec
          split at h
          · simp only [Except.ok.injEq, Prod.mk.injEq] at h
            obtain ⟨h1, h2, h3, h4⟩ := h
            subst h1; subst h2; subst h3; subst h4
            refine ⟨?_, ?_⟩
            · intro s hs
              rcases List.mem_cons.mp hs with rfl | hs'
              · exact hqb
              · exact ih.1 s hs'
            · intro ci hci
              rcases List.mem_append.mp hci with hci | hmis
              · rcases List.mem_append.mp hci with hcov | hpar
                · rcases List.mem_cons.mp hcov with rfl | hcov'
                  · simpa using hsb
                  · exact ih.2 ci (by simp [hcov'])
                · exact ih.2 ci (by simp [hpar])
              · exact ih.2 ci (by simp [hmis])
          · split at h
            · simp only [Except.ok.injEq, Prod.mk.injEq] at h
              obtain ⟨h1, h2, h3, h4⟩ := h
              subst h1; subst h2; subst h3; subst h4
              refine ⟨?_, ?_⟩
              · intro s hs
                rcases List.mem_cons.mp hs with rfl | hs'
                · exact hqb
                · exact ih.1 s hs'
              · intro ci hci
                rcases List.mem_append.mp hci with hci | hmis
                · rcases List.mem_append.mp hci with hcov | hpar
                  · exact ih.2 ci (by simp [hcov])
                  · rcases List.mem_cons.mp hpar with rfl | hpar'
                    · simpa using hsb
                    · exact ih.2 ci (by simp [hpar'])
                · exact ih.2 ci (by simp [hmis])
            · simp only [Except.ok.injEq, Prod.mk.injEq] at h
              obtain ⟨h1, h2, h3, h4⟩ := h
              subst h1; subst h2; subst h3; subst h4
              refine ⟨?_, ?_⟩
              · intro s hs
                rcases List.mem_cons.mp hs with rfl | hs'
                · exact hqb
                · exact ih.1 s hs'
              · intro ci hci
                rcases List.mem_append.mp hci with hci | hmis
                · rcases List.mem_append.mp hci with hcov | hpar
                  · exact ih.2 ci (by simp [hcov])
                  · exact ih.2 ci (by simp [hpar])
                · rcases List.mem_cons.mp hmis with rfl | hmis'
                  · simpa using hsb
                  · exact ih.2 ci (by simp [hmis'])

theorem articleLevel_ok_bounds {article : Article} {ft ftn : Str} {n : Nat}
    {aid : String} {clauses : List Clause} {judge : JudgeFn} {bm25 e5 : ℚ}
    {llmOnly : Bool} {r : CoverageResult}
    (he0 : 0 ≤ e5) (he1 : e5 ≤ 1)
    (hj : ∀ q res, judge q = some res → 0 ≤ res.score ∧ res.score ≤ 1)
    (h : _calculate_article_coverage_llm_article_level article ft ftn n aid
      clauses judge bm25 e5 llmOnly = .ok r) :
    (0 ≤ r.coveragePercentage ∧ r.coveragePercentage ≤ 100)
    ∧ (∀ ci ∈ r.coveredClauses ++ (r.partiallyCoveredClauses.getD [])
        ++ r.missingClauses,
        0 ≤ ci.coverageScore ∧ ci.coverageScore ≤ 100) := by
  unfold _calculate_article_coverage_llm_article_level at h
  by_cases hraw : rawArticleTextOf article clauses = []
  · rw [if_pos hraw] at h
    simp only [Except.ok.injEq] at h
    rw [← h]
    norm_num
  · rw [if_neg hraw] at h
    have hfinish : ∀ (p : ℚ), 0 ≤ p → p ≤ 100 →
        ∀ (band : String) (i0 : ClauseInfo), i0.coverageScore = p →
        ∀ (hcase : r = mkArticleLevelResult band p [i0] [] [] aid n
            ∨ r = mkArticleLevelResult band p [] [i0] [] aid n
            ∨ r = mkArticleLevelResult band p [] [] [i0] aid n),
        (0 ≤ r.coveragePercentage ∧ r.coveragePercentage ≤ 100)
        ∧ (∀ ci ∈ r.coveredClauses ++ (r.partiallyCoveredClauses.getD [])
            ++ r.missingClauses,
            0 ≤ ci.coverageScore ∧ ci.coverageScore ≤ 100) := by
      intro p hp0 hp1 band i0 hi0 hcase
      rcases hcase with rfl | rfl | rfl <;>
        refine ⟨⟨hp0, hp1⟩, ?_⟩ <;>
        · intro ci hci
          simp only [mkArticleLevelResult, List.append_nil, List.nil_append,
            Option.getD_some, List.mem_singleton] at hci
          rw [hci, hi0]
          exact ⟨hp0, hp1⟩
    cases hq : judge { clauseText := rawArticleTextOf article clauses,
                       pdfText := ft, articleNumber := n,
                       clauseLabel := "Article-level" } with
    | some res =>
      simp only [hq] at h
      have hresb := hj _ res hq
      have hpb := round2_percent_bounds hresb.1 hresb.2
      split at h
      · injection h with h'
        exact hfinish _ hpb.1 hpb.2 _ _ rfl (Or.inl h'.symm)
      · split at h
        · injection h with h'
          exact hfinish _ hpb.1 hpb.2 _ _ rfl (Or.inr (Or.inl h'.symm))
        · injection h with h'
          exact hfinish _ hpb.1 hpb.2 _ _ rfl (Or.inr (Or.inr h'.symm))
    | none =>
      cases llmOnly with
      | true => simp [hq] at h
      | false =>
        simp only [hq, Bool.false_eq_true, if_false] at h
        have htb : 0 ≤ (_traditional_clause_match (normalize_text
              (rawArticleTextOf article clauses)) ftn bm25 e5).1
            ∧ (_traditional_clause_match (normalize_text
              (rawArticleTextOf article clauses)) ftn bm25 e5).1 ≤ 1 := by
          simpa [traditional_fst] using blend_bounds he0 he1
        have hpb := round2_percent_bounds htb.1 htb.2
        split at h
        · injection h with h'
          exact hfinish _ hpb.1 hpb.2 _ _ rfl (Or.inl h'.symm)
        · split at h
          · injection h with h'
            exact hfinish _ hpb.1 hpb.2 _ _ rfl (Or.inr (Or.inl h'.symm))
          · injection h with h'
            exact hfinish _ hpb.1 hpb.2 _ _ rfl (Or.inr (Or.inr h'.symm))

theorem avg_bounds {l : List ℚ} (h : ∀ x ∈ l, 0 ≤ x ∧ x ≤ 1) (hl : 0 < l.length) :
    0 ≤ l.sum / (l.length : ℚ) ∧ l.sum / (l.length : ℚ) ≤ 1 := by
  have hsum0 : 0 ≤ l.sum := List.sum_nonneg (fun x hx => (h x hx).1)
  have hsum1 : l.sum ≤ (l.length : ℚ) := by
    have := List.sum_le_card_nsmul l 1 (fun x hx => (h x hx).2)
    simpa using this
  have hlenq : (0 : ℚ) < (l.length : ℚ) := by exact_mod_cast hl
  constructor
  · positivity
  · rw [div_le_one hlenq]
    exact hsum1


theorem coverageViaClauses_ok_bounds {article : Article} {ft ftn : Str}
    {n : Nat} {aid : String} {clauses : List Clause} {judgeOpt : Option JudgeFn}
    {bm25 e5 : ℚ} {llmOnly : Bool} {r : CoverageResult}
    (he0 : 0 ≤ e5) (he1 : e5 ≤ 1)
    (hj : ∀ j, judgeOpt = some j → ∀ q res, j q = some res →
      0 ≤ res.score ∧ res.score ≤ 1)
    (h : coverageViaClauses article ft ftn n aid clauses judgeOpt bm25 e5 llmOnly
      = .ok r) :
    (0 ≤ r.coveragePercentage ∧ r.coveragePercentage ≤ 100)
    ∧ (∀ ci ∈ r.coveredClauses ++ (r.partiallyCoveredClauses.getD [])
        ++ r.missingClauses,
        0 ≤ ci.coverageScore ∧ ci.coverageScore ≤ 100) := by
  unfold coverageViaClauses at h
  by_cases hempty : clauses = []
  · rw [if_pos hempty] at h
    injection h with h'
    rw [← h']
    have hbb := @blend_bounds bm25 e5 he0 he1
    have := round2_percent_bounds hbb.1 hbb.2
    exact ⟨this, by simp⟩
  · rw [if_neg hempty] at h
    cases hpc : processClauses judgeOpt llmOnly ft ftn n bm25 e5 clauses with
    | error e => rw [hpc] at h; simp at h
    | ok out =>
      obtain ⟨cov, par, mis, scores⟩ := out
      rw [hpc] at h
      dsimp only at h
      injection h with h'
      rw [← h']
      have hb := processClauses_bounds he0 he1 hj clauses hpc
      constructor
      · dsimp only
        split
        · next hpos =>
          have := avg_bounds hb.1 (by omega)
          exact round2_percent_bounds this.1 this.2
        · norm_num
      · dsimp only
        simpa using hb.2

/-- **C3** (amended).  Every coverage percentage produced by the Coverage
Scorer — clause-level `coverage_score`s and the article-level
`coverage_percentage`, on the LLM path and on the traditional fallback path
alike — lies in `[0, 100]`, *provided* the embedding score is in `[0, 1]`
and the judge only returns scores in `[0, 1]` (as `llm_clause_match` always
does).  For negative embedding scores (the data model allows cosine
similarities in `[-1, 1]`) the invariant fails, see the counterexample. -/
theorem c3_coverage_in_range
    (article : Article) (extractedText : List Str) (pdplArticles : List Article)
    (judgeOpt : Option JudgeFn) (bm25 e5 : ℚ) (llmOnly : Bool) (r : CoverageResult)
    (he0 : 0 ≤ e5) (he1 : e5 ≤ 1)
    (hj : ∀ j, judgeOpt = some j → ∀ q res, j q = some res →
      0 ≤ res.score ∧ res.score ≤ 1)
    (h : calculate_article_coverage article extractedText pdplArticles judgeOpt
      bm25 e5 llmOnly = .ok r) :
    (0 ≤ r.coveragePercentage ∧ r.coveragePercentage ≤ 100)
    ∧ (∀ ci ∈ r.coveredClauses ++ (r.partiallyCoveredClauses.getD [])
        ++ r.missingClauses,
        0 ≤ ci.coverageScore ∧ ci.coverageScore ≤ 100) := by
  unfold calculate_article_coverage at h
  rcases judgeOpt with _ | j
  · cases hm : article.isMainArticle <;>
      · simp only [hm] at h
        exact coverageViaClauses_ok_bounds he0 he1 (by simp) h
  · cases hm : article.isMainArticle
    · simp only [hm] at h
      exact coverageViaClauses_ok_bounds he0 he1
        (fun j' hj' q res hq => hj j' hj' q res hq) h
    · simp only [hm] at h
      exact articleLevel_ok_bounds he0 he1 (fun q res hq => hj j rfl q res hq) h

/-- **C3** (counterexample).  With a negative embedding score (allowed by
the data model's `[-1, 1]` cosine range), the traditional path produces a
coverage percentage of `-30`, outside `[0, 100]`. -/
theorem c3_counterexample :
    ((calculate_article_coverage articleNonMain pageDoc [] none 0 (-(1/2))
        false).map (fun r => r.coveragePercentage) = .ok (-30))
      ∧ ((-30 : ℚ) < 0) := by
  constructor
  · have hnorm : normalize_text "right of access".toList =
        "right of access".toList := by decide
    have hskip : clauseSkipped 7 "right of access".toList = false := by decide
    simp only [calculate_article_coverage, coverageViaClauses, processClauses,
      clauseStep, articleNonMain, pageDoc, clauseOfArticle, hnorm, hskip,
      Bool.false_eq_true, if_false, _traditional_clause_match]
    norm_num [round2, roundHalfEven]
    rfl
  · norm_num

theorem ite_pos_min {bm25 : ℚ} (hb : 0 ≤ bm25) :
    (if bm25 > 0 then min 1 (bm25 / 10) else (0 : ℚ)) = min 1 (bm25 / 10) := by
  split
  · rfl
  · next hneg =>
    have h0 : bm25 = 0 := le_antisymm (not_lt.mp hneg) hb
    rw [h0]
    norm_num

theorem clauseStep_fallback {judgeOpt : Option JudgeFn} {ft ftn : Str} {n : Nat}
    {bm25 e5 : ℚ} {clause : Clause}
    (hq : judgeOpt = none
      ∨ ∃ j, judgeOpt = some j ∧ ∀ q, j q = none) (ct : Str) :
    clauseStep judgeOpt false ft ftn n bm25 e5 clause ct
      = .ok ((_traditional_clause_match ct ftn bm25 e5).1, none, none,
             "traditional_bm25_e5", none) := by
  rcases hq with rfl | ⟨j, rfl, hnone⟩
  · rfl
  · simp only [clauseStep, hnone, Bool.false_eq_true, if_false]
    rfl

theorem processClauses_fallback {judgeOpt : Option JudgeFn} {ft ftn : Str}
    {n : Nat} {bm25 e5 : ℚ}
    (hq : judgeOpt = none ∨ ∃ j, judgeOpt = some j ∧ ∀ q, j q = none) :
    ∀ (cs : List Clause), ∃ cov par mis scores,
      processClauses judgeOpt false ft ftn n bm25 e5 cs = .ok (cov, par, mis, scores)
      ∧ (∀ ci ∈ cov ++ par ++ mis, ci.matchingMethod = "traditional_bm25_e5")
      ∧ (∀ s ∈ scores,
          s = 0.4 * (if bm25 > 0 then min 1 (bm25 / 10) else 0) + 0.6 * e5)
  | [] => ⟨[], [], [], [], rfl, by simp, by simp⟩
  | c :: rest => by
    obtain ⟨cov, par, mis, scores, hrec, hmeth, hsc⟩ :=
      processClauses_fallback hq rest
    by_cases hsk : clauseSkipped n (normalize_text c.text) = true
    · refine ⟨cov, par, mis, scores, ?_, hmeth, hsc⟩
      unfold processClauses
      rw [if_pos hsk]
      exact hrec
    · have hstep := @clauseStep_fallback judgeOpt ft ftn n bm25 e5 c
        hq (normalize_text c.text)
      have hval : (_traditional_clause_match (normalize_text c.text) ftn bm25 e5).1
          = 0.4 * (if bm25 > 0 then min 1 (bm25 / 10) else 0) + 0.6 * e5 :=
        traditional_fst _ _ _ _
      have hsc' : ∀ s ∈ ((_traditional_clause_match (normalize_text c.text) ftn
          bm25 e5).1 :: scores),
          s = 0.4 * (if bm25 > 0 then min 1 (bm25 / 10) else 0) + 0.6 * e5 := by
        intro s hs
        rcases List.mem_cons.mp hs with rfl | hs'
        · exact hval
        · exact hsc s hs'
      unfold processClauses
      rw [if_neg hsk, hstep, hrec]
      dsimp only
      split
      · refine ⟨_, par, mis, _, rfl, ?_, hsc'⟩
        intro ci hci
        rcases List.mem_append.mp hci with hci | hmis
        · rcases List.mem_append.mp hci with hcov | hpar
          · rcases List.mem_cons.mp hcov with rfl | hcov'
            · rfl
            · exact hmeth ci (by simp [hcov'])
          · exact hmeth ci (by simp [hpar])
        · exact hmeth ci (by simp [hmis])
      · split
        · refine ⟨cov, _, mis, _, rfl, ?_, hsc'⟩
          intro ci hci
          rcases List.mem_append.mp hci with hci | hmis
          · rcases List.mem_append.mp hci with hcov | hpar
            · exact hmeth ci (by simp [hcov])
            · rcases List.mem_cons.mp hpar with rfl | hpar'
              · rfl
              · exact hmeth ci (by simp [hpar'])
          · exact hmeth ci (by simp [hmis])
        · refine ⟨cov, par, _, _, rfl, ?_, hsc'⟩
          intro ci hci
          rcases List.mem_append.mp hci with hci | hmis
          · rcases List.mem_append.mp hci with hcov | hpar
            · exact hmeth ci (by simp [hcov])
            · exact hmeth ci (by simp [hpar])
          · rcases List.mem_cons.mp hmis with rfl | hmis'
            · rfl
            · exact hmeth ci (by simp [hmis'])

theorem calc_fallback {article : Article} {extractedText : List Str}
    {pdplArticles : List Article} {j : JudgeFn} {bm25 e5 : ℚ}
    (hnone : ∀ q, j q = none) :
    ∃ r, calculate_article_coverage article extractedText pdplArticles (some j)
        bm25 e5 false = .ok r
      ∧ (∀ ci ∈ r.coveredClauses ++ (r.partiallyCoveredClauses.getD [])
          ++ r.missingClauses, ci.matchingMethod = "traditional_bm25_e5")
      ∧ (article.isMainArticle = true →
          rawArticleTextOf article article.clauses ≠ [] →
          r.coveragePercentage = round2 ((0.4 * (if bm25 > 0 then min 1 (bm25 / 10)
            else 0) + 0.6 * e5) * 100)) := by
  unfold calculate_article_coverage
  cases hm : article.isMainArticle
  · simp only [hm, Bool.false_eq_true, if_false]
    obtain ⟨cov, par, mis, scores, hpc, hmeth, -⟩ :=
      processClauses_fallback (Or.inr ⟨j, rfl, hnone⟩) [clauseOfArticle article]
    unfold coverageViaClauses
    rw [if_neg (by simp : ¬([clauseOfArticle article] = [])), hpc]
    dsimp only
    refine ⟨_, rfl, ?_, ?_⟩
    · simpa using hmeth
    · intro h1
      exact h1.elim
  · simp only [hm, eq_self_iff_true, if_true]
    unfold _calculate_article_coverage_llm_article_level
    by_cases hraw : rawArticleTextOf article article.clauses = []
    · rw [if_pos hraw]
      refine ⟨_, rfl, ?_, ?_⟩
      · simp
      · intro _ h2
        exact absurd hraw h2
    · rw [if_neg hraw]
      simp only [hnone, Bool.false_eq_true, if_false]
      split
      · refine ⟨_, rfl, ?_, ?_⟩
        · intro ci hci
          simp only [mkArticleLevelResult, List.append_nil, List.nil_append,
            Option.getD_some, List.mem_singleton] at hci
          rw [hci]
          rfl
        · intro _ _
          simp only [mkArticleLevelResult, traditional_fst]
      · split
        · refine ⟨_, rfl, ?_, ?_⟩
          · intro ci hci
            simp only [mkArticleLevelResult, List.append_nil, List.nil_append,
              Option.getD_some, List.mem_singleton] at hci
            rw [hci]
            rfl
          · intro _ _
            simp only [mkArticleLevelResult, traditional_fst]
        · refine ⟨_, rfl, ?_, ?_⟩
          · intro ci hci
            simp only [mkArticleLevelResult, List.append_nil, List.nil_append,
              Option.getD_some, List.mem_singleton] at hci
            rw [hci]
            rfl
          · intro _ _
            simp only [mkArticleLevelResult, traditional_fst]

/-- **C6** (confirmed).  In normal (non-strict) mode, when the judge
function returns `None` on every call, the Coverage Scorer still returns a
well-formed coverage record: every clause judgment carries the traditional
matching method (`"traditional_bm25_e5"`), and (on the article-level path,
i.e. main articles with non-empty requirement text) the coverage is
determined by the traditional formula `0.4·min(1, bm25/10) + 0.6·e5`. -/
theorem c6_traditional_fallback
    (article : Article) (extractedText : List Str) (pdplArticles : List Article)
    (j : JudgeFn) (bm25 e5 : ℚ)
    (hnone : ∀ q, j q = none) (hb : 0 ≤ bm25) :
    ∃ r, calculate_article_coverage article extractedText pdplArticles (some j)
        bm25 e5 false = .ok r
      ∧ (∀ ci ∈ r.coveredClauses ++ (r.partiallyCoveredClauses.getD [])
          ++ r.missingClauses, ci.matchingMethod = "traditional_bm25_e5")
      ∧ (article.isMainArticle = true →
          rawArticleTextOf article article.clauses ≠ [] →
          r.coveragePercentage
            = round2 ((0.4 * min 1 (bm25 / 10) + 0.6 * e5) * 100)) := by
  obtain ⟨r, hr, hmeth, hp⟩ := calc_fallback hnone
  refine ⟨r, hr, hmeth, fun h1 h2 => ?_⟩
  rw [hp h1 h2, ite_pos_min hb]

/-- Witness for `c6_traditional_fallback`: an always-`None` judge on a main
article with BM25 score 3 and embedding score 0.7. -/
theorem c6_traditional_fallback_witness :
    ∃ r, calculate_article_coverage articleMain pageDoc [] (some judgeAbsent)
        3 (7/10) false = .ok r
      ∧ r.coveragePercentage
          = round2 ((0.4 * min 1 ((3 : ℚ) / 10) + 0.6 * (7/10)) * 100) := by
  obtain ⟨r, hr, -, hp⟩ := c6_traditional_fallback articleMain pageDoc []
    judgeAbsent 3 (7/10) (fun _ => rfl) (by norm_num)
  exact ⟨r, hr, hp rfl (by decide)⟩

/-- Witness for `c3_coverage_in_range`: the fallback path on a clause-level
article with embedding score `1/2`. -/
theorem c3_coverage_in_range_witness :
    ∃ r, calculate_article_coverage articleNonMain pageDoc [] (some judgeAbsent)
        0 (1/2) false = .ok r
      ∧ 0 ≤ r.coveragePercentage ∧ r.coveragePercentage ≤ 100 := by
  obtain ⟨r, hr, -, -⟩ := @calc_fallback articleNonMain pageDoc [] judgeAbsent
    0 (1/2) (fun _ => rfl)
  have hb := c3_coverage_in_range articleNonMain pageDoc [] (some judgeAbsent)
    0 (1/2) false r (by norm_num) (by norm_num)
    (by intro j' hj' q res hres
        injection hj' with h'
        rw [← h'] at hres
        simp [judgeAbsent] at hres)
    hr
  exact ⟨r, hr, hb.1⟩

theorem processClauses_cat {judgeOpt : Option JudgeFn} {llmOnly : Bool}
    {ft ftn : Str} {n : Nat} {bm25 e5 : ℚ} :
    ∀ (cs : List Clause) {cov par mis : List ClauseInfo} {scores : List ℚ},
    processClauses judgeOpt llmOnly ft ftn n bm25 e5 cs = .ok (cov, par, mis, scores) →
    (∀ ci ∈ cov, 75 ≤ ci.coverageScore)
    ∧ (∀ ci ∈ par, 40 ≤ ci.coverageScore ∧ ci.coverageScore < 75)
    ∧ (∀ ci ∈ mis, ci.coverageScore < 40)
  | [], cov, par, mis, scores, h => by
    simp only [processClauses, Except.ok.injEq, Prod.mk.injEq] at h
    obtain ⟨h1, h2, h3, h4⟩ := h
    subst h1; subst h2; subst h3; subst h4
    simp
  | c :: rest, cov, par, mis, scores, h => by
    unfold processClauses at h
    by_cases hsk : clauseSkipped n (normalize_text c.text) = true
    · rw [if_pos hsk] at h
      exact processClauses_cat rest h
    · rw [if_neg hsk] at h
      cases hstep : clauseStep judgeOpt llmOnly ft ftn n bm25 e5 c
          (normalize_text c.text) with
      | error e => rw [hstep] at h; simp at h
      | ok out =>
        obtain ⟨q, oe, oc, m, rp⟩ := out
        rw [hstep] at h
        cases hrec : processClauses judgeOpt llmOnly ft ftn n bm25 e5 rest with
        | error e => rw [hrec] at h; simp at h
        | ok out2 =>
          obtain ⟨cov', par', mis', scores'⟩ := out2
          rw [hrec] at h
          dsimp only at h
          have ih := processClauses_cat rest hrec
          split at h
          next hge =>
            simp only [Except.ok.injEq, Prod.mk.injEq] at h
            obtain ⟨h1, h2, h3, h4⟩ := h
            subst h1; subst h2; subst h3; subst h4
            refine ⟨?_, ih.2.1, ih.2.2⟩
            intro ci hci
            rcases List.mem_cons.mp hci with rfl | hci'
            · simpa using hge
            · exact ih.1 ci hci'
          next hge =>
            split at h
            next hge40 =>
              simp only [Except.ok.injEq, Prod.mk.injEq] at h
              obtain ⟨h1, h2, h3, h4⟩ := h
              subst h1; subst h2; subst h3; subst h4
              refine ⟨ih.1, ?_, ih.2.2⟩
              intro ci hci
              rcases List.mem_cons.mp hci with rfl | hci'
              · exact ⟨by simpa using hge40, by simpa using not_le.mp hge⟩
              · exact ih.2.1 ci hci'
            next hge40 =>
              simp only [Except.ok.injEq, Prod.mk.injEq] at h
              obtain ⟨h1, h2, h3, h4⟩ := h
              subst h1; subst h2; subst h3; subst h4
              refine ⟨ih.1, ih.2.1, ?_⟩
              intro ci hci
              rcases List.mem_cons.mp hci with rfl | hci'
              · simpa using not_le.mp hge40
              · exact ih.2.2 ci hci'

theorem articleLevel_band {article : Article} {ft ftn : Str} {n : Nat}
    {aid : String} {clauses : List Clause} {judge : JudgeFn} {bm25 e5 : ℚ}
    {llmOnly : Bool} {r : CoverageResult}
    (h : _calculate_article_coverage_llm_article_level article ft ftn n aid
      clauses judge bm25 e5 llmOnly = .ok r) :
    (∀ b, r.band = some b → b = bandOfPercentage r.coveragePercentage)
    ∧ (∀ t, r.coverageType = some t →
        t = (if r.coveragePercentage ≥ 75 then "covered"
             else if r.coveragePercentage ≥ 40 then "partially_covered"
             else "missing"))
    ∧ (∀ ci ∈ r.coveredClauses, 75 ≤ ci.coverageScore)
    ∧ (∀ ci ∈ r.partiallyCoveredClauses.getD [],
        40 ≤ ci.coverageScore ∧ ci.coverageScore < 75)
    ∧ (∀ ci ∈ r.missingClauses, ci.coverageScore < 40) := by
  unfold _calculate_article_coverage_llm_article_level at h
  by_cases hraw : rawArticleTextOf article clauses = []
  · rw [if_pos hraw] at h
    injection h with h'
    rw [← h']
    refine ⟨?_, ?_, ?_, ?_, ?_⟩
    · intro b hb
      simp only [Option.some.injEq] at hb
      rw [← hb]
      norm_num [bandOfPercentage]
    · intro t ht
      simp at ht
    · intro ci hci
      simp at hci
    · intro ci hci
      simp at hci
    · intro ci hci
      simp at hci
  · rw [if_neg hraw] at h
    have hfinish : ∀ (p : ℚ),
        ((∃ i0, r = mkArticleLevelResult (bandOfPercentage p) p [i0] [] [] aid n
            ∧ i0.coverageScore = p ∧ 75 ≤ p)
         ∨ (∃ i1, r = mkArticleLevelResult (bandOfPercentage p) p [] [i1] [] aid n
            ∧ i1.coverageScore = p ∧ 40 ≤ p ∧ p < 75)
         ∨ (∃ i2, r = mkArticleLevelResult (bandOfPercentage p) p [] [] [i2] aid n
            ∧ i2.coverageScore = p ∧ p < 40)) →
        (∀ b, r.band = some b → b = bandOfPercentage r.coveragePercentage)
        ∧ (∀ t, r.coverageType = some t →
            t = (if r.coveragePercentage ≥ 75 then "covered"
                 else if r.coveragePercentage ≥ 40 then "partially_covered"
                 else "missing"))
        ∧ (∀ ci ∈ r.coveredClauses, 75 ≤ ci.coverageScore)
        ∧ (∀ ci ∈ r.partiallyCoveredClauses.getD [],
            40 ≤ ci.coverageScore ∧ ci.coverageScore < 75)
        ∧ (∀ ci ∈ r.missingClauses, ci.coverageScore < 40) := by
      rintro p (⟨i0, rfl, hi0, hp⟩ | ⟨i1, rfl, hi1, hp40, hp75⟩ | ⟨i2, rfl, hi2, hp⟩)
      · refine ⟨?_, ?_, ?_, ?_, ?_⟩
        · intro b hb
          simp only [mkArticleLevelResult, Option.some.injEq] at hb
          rw [← hb]
          simp [mkArticleLevelResult]
        · intro t ht
          simp [mkArticleLevelResult] at ht
        · intro ci hci
          simp only [mkArticleLevelResult, List.mem_singleton] at hci
          rw [hci, hi0]
          exact hp
        · intro ci hci
          simp [mkArticleLevelResult] at hci
        · intro ci hci
          simp [mkArticleLevelResult] at hci
      · refine ⟨?_, ?_, ?_, ?_, ?_⟩
        · intro b hb
          simp only [mkArticleLevelResult, Option.some.injEq] at hb
          rw [← hb]
          simp [mkArticleLevelResult]
        · intro t ht
          simp [mkArticleLevelResult] at ht
        · intro ci hci
          simp [mkArticleLevelResult] at hci
        · intro ci hci
          simp only [mkArticleLevelResult, Option.getD_some, List.mem_singleton] at hci
          rw [hci, hi1]
          exact ⟨hp40, hp75⟩
        · intro ci hci
          simp [mkArticleLevelResult] at hci
      · refine ⟨?_, ?_, ?_, ?_, ?_⟩
        · intro b hb
          simp only [mkArticleLevelResult, Option.some.injEq] at hb
          rw [← hb]
          simp [mkArticleLevelResult]
        · intro t ht
          simp [mkArticleLevelResult] at ht
        · intro ci hci
          simp [mkArticleLevelResult] at hci
        · intro ci hci
          simp [mkArticleLevelResult] at hci
        · intro ci hci
          simp only [mkArticleLevelResult, List.mem_singleton] at hci
          rw [hci, hi2]
          exact hp
    cases hq : judge { clauseText := rawArticleTextOf article clauses,
                       pdfText := ft, articleNumber := n,
                       clauseLabel := "Article-level" } with
    | some res =>
      simp only [hq] at h
      split at h
      next hge =>
        injection h with h'
        exact hfinish _ (Or.inl ⟨_, h'.symm, rfl, hge⟩)
      next hge =>
        split at h
        next hge40 =>
          injection h with h'
          exact hfinish _ (Or.inr (Or.inl ⟨_, h'.symm, rfl, hge40, not_le.mp hge⟩))
        next hge40 =>
          injection h with h'
          exact hfinish _ (Or.inr (Or.inr ⟨_, h'.symm, rfl, not_le.mp hge40⟩))
    | none =>
      cases llmOnly with
      | true => simp [hq] at h
      | false =>
        simp only [hq, Bool.false_eq_true, if_false] at h
        split at h
        next hge =>
          injection h with h'
          exact hfinish _ (Or.inl ⟨_, h'.symm, rfl, hge⟩)
        next hge =>
          split at h
          next hge40 =>
            injection h with h'
            exact hfinish _ (Or.inr (Or.inl ⟨_, h'.symm, rfl, hge40, not_le.mp hge⟩))
          next hge40 =>
            injection h with h'
            exact hfinish _ (Or.inr (Or.inr ⟨_, h'.symm, rfl, not_le.mp hge40⟩))

theorem coverageViaClauses_band {article : Article} {ft ftn : Str}
    {n : Nat} {aid : String} {clauses : List Clause} {judgeOpt : Option JudgeFn}
    {bm25 e5 : ℚ} {llmOnly : Bool} {r : CoverageResult}
    (h : coverageViaClauses article ft ftn n aid clauses judgeOpt bm25 e5 llmOnly
      = .ok r) :
    (∀ b, r.band = some b → b = bandOfPercentage r.coveragePercentage)
    ∧ (∀ t, r.coverageType = some t →
        t = (if r.coveragePercentage ≥ 75 then "covered"
             else if r.coveragePercentage ≥ 40 then "partially_covered"
             else "missing"))
    ∧ (∀ ci ∈ r.coveredClauses, 75 ≤ ci.coverageScore)
    ∧ (∀ ci ∈ r.partiallyCoveredClauses.getD [],
        40 ≤ ci.coverageScore ∧ ci.coverageScore < 75)
    ∧ (∀ ci ∈ r.missingClauses, ci.coverageScore < 40) := by
  unfold coverageViaClauses at h
  by_cases hempty : clauses = []
  · rw [if_pos hempty] at h
    injection h with h'
    rw [← h']
    refine ⟨?_, ?_, ?_, ?_, ?_⟩
    · intro b hb
      simp at hb
    · intro t ht
      simp only [Option.some.injEq] at ht
      rw [← ht]
    · intro ci hci
      simp at hci
    · intro ci hci
      simp at hci
    · intro ci hci
      simp at hci
  · rw [if_neg hempty] at h
    cases hpc : processClauses judgeOpt llmOnly ft ftn n bm25 e5 clauses with
    | error e => rw [hpc] at h; simp at h
    | ok out =>
      obtain ⟨cov, par, mis, scores⟩ := out
      rw [hpc] at h
      dsimp only at h
      injection h with h'
      rw [← h']
      have hcat := processClauses_cat clauses hpc
      refine ⟨?_, ?_, ?_, ?_, ?_⟩
      · intro b hb
        simp only [Option.some.injEq] at hb
        rw [← hb]
      · intro t ht
        simp at ht
      · intro ci hci
        exact hcat.1 ci (by simpa using hci)
      · intro ci hci
        exact hcat.2.1 ci (by simpa using hci)
      · intro ci hci
        exact hcat.2.2 ci (by simpa using hci)

/-- **C8** (confirmed).  The band thresholds of the Coverage Scorer are the
fixed constants 75 and 40, inclusive of the higher band, and are applied
uniformly: `bandOfPercentage p` (the `if p >= 75 / elif p >= 40 / else`
ladder that appears verbatim in both the clause path and the article-level
path) is `"Full"` iff `p ≥ 75`, `"Partial"` iff `40 ≤ p < 75` and
`"Missing"` iff `p < 40`; every article band returned by
`calculate_article_coverage` is `bandOfPercentage` of the returned
percentage; the `coverage_type` of the no-clauses branch uses the same two
cutoffs; and clause categorisation sorts a clause into covered / partially
covered / missing exactly by its (0–100) clause score against 75 and 40. -/
theorem c8_band_thresholds :
    (∀ p : ℚ, (bandOfPercentage p = "Full" ↔ 75 ≤ p)
      ∧ (bandOfPercentage p = "Partial" ↔ 40 ≤ p ∧ p < 75)
      ∧ (bandOfPercentage p = "Missing" ↔ p < 40))
    ∧ (∀ (article : Article) (extractedText : List Str)
        (pdplArticles : List Article) (judgeOpt : Option JudgeFn)
        (bm25 e5 : ℚ) (llmOnly : Bool) (r : CoverageResult),
        calculate_article_coverage article extractedText pdplArticles judgeOpt
          bm25 e5 llmOnly = .ok r →
        (∀ b, r.band = some b → b = bandOfPercentage r.coveragePercentage)
        ∧ (∀ t, r.coverageType = some t →
            t = (if r.coveragePercentage ≥ 75 then "covered"
                 else if r.coveragePercentage ≥ 40 then "partially_covered"
                 else "missing"))
        ∧ (∀ ci ∈ r.coveredClauses, 75 ≤ ci.coverageScore)
        ∧ (∀ ci ∈ r.partiallyCoveredClauses.getD [],
            40 ≤ ci.coverageScore ∧ ci.coverageScore < 75)
        ∧ (∀ ci ∈ r.missingClauses, ci.coverageScore < 40)) := by
  constructor
  · intro p
    unfold bandOfPercentage
    by_cases h75 : p ≥ 75
    · rw [if_pos h75]
      refine ⟨⟨fun _ => h75, fun _ => rfl⟩, ⟨?_, ?_⟩, ⟨?_, ?_⟩⟩
      · intro hc
        exact absurd hc (by decide)
      · intro hc
        exact absurd h75 (not_le.mpr hc.2)
      · intro hc
        exact absurd hc (by decide)
      · intro hc
        exact absurd h75 (not_le.mpr (lt_trans hc (by norm_num)))
    · rw [if_neg h75]
      have h75' : p < 75 := not_le.mp h75
      by_cases h40 : p ≥ 40
      · rw [if_pos h40]
        refine ⟨⟨?_, ?_⟩, ⟨fun _ => ⟨h40, h75'⟩, fun _ => rfl⟩, ⟨?_, ?_⟩⟩
        · intro hc
          exact absurd hc (by decide)
        · intro hc
          exact absurd hc (not_le.mpr h75')
        · intro hc
          exact absurd hc (by decide)
        · intro hc
          exact absurd hc (not_lt.mpr h40)
      · rw [if_neg h40]
        have h40' : p < 40 := not_le.mp h40
        refine ⟨⟨?_, ?_⟩, ⟨?_, ?_⟩, ⟨fun _ => h40', fun _ => rfl⟩⟩
        · intro hc
          exact absurd hc (by decide)
        · intro hc
          exact absurd (lt_of_le_of_lt hc h40') (by norm_num)
        · intro hc
          exact absurd hc (by decide)
        · intro hc
          exact absurd (lt_of_le_of_lt hc.1 h40') (by norm_num)
  · intro article extractedText pdplArticles judgeOpt bm25 e5 llmOnly r h
    unfold calculate_article_coverage at h
    rcases judgeOpt with _ | j
    · cases hm : article.isMainArticle <;>
        · simp only [hm] at h
          exact coverageViaClauses_band h
    · cases hm : article.isMainArticle
      · simp only [hm] at h
        exact coverageViaClauses_band h
      · simp only [hm] at h
        exact articleLevel_band h

/-- Witness for `c8_band_thresholds`: the concrete percentage 80 maps to
"Full", and a concrete scorer run yields a band consistent with its
percentage. -/
theorem c8_band_thresholds_witness :
    (bandOfPercentage (80 : ℚ) = "Full" ↔ (75 : ℚ) ≤ 80)
    ∧ ∃ r, calculate_article_coverage articleNonMain pageDoc []
        (some judgeAbsent) 2 (9/10) false = .ok r
      ∧ (∀ b, r.band = some b → b = bandOfPercentage r.coveragePercentage) := by
  obtain ⟨r, hr, -, -⟩ := @calc_fallback articleNonMain pageDoc [] judgeAbsent
    2 (9/10) (fun _ => rfl)
  exact ⟨(c8_band_thresholds.1 80).1, r, hr,
    (c8_band_thresholds.2 articleNonMain pageDoc [] (some judgeAbsent)
      2 (9/10) false r hr).1⟩

/-- **C4** (confirmed).  On the article-level LLM path — a main article
whose requirement text is non-empty, a judge function provided, and the
judge returning a result for the single "Article-level" query — the
returned `coverage_percentage` is exactly the judge's 0–1 score times 100,
rounded to two decimals.  The BM25/E5 retrieval blend (`bm25` and `e5`
below) is universally quantified and absent from the conclusion: it is
computed only into the diagnostic `debug_scores` and has no influence on
the percentage. -/
theorem c4_article_level_judge_score
    (article : Article) (extractedText : List Str) (pdplArticles : List Article)
    (j : JudgeFn) (bm25 e5 : ℚ) (llmOnly : Bool) (res : JudgeResult)
    (hm : article.isMainArticle = true)
    (hraw : rawArticleTextOf article article.clauses ≠ [])
    (hq : j { clauseText := rawArticleTextOf article article.clauses,
              pdfText := joinTexts extractedText,
              articleNumber := article.articleNumber,
              clauseLabel := "Article-level" } = some res) :
    ∃ r, calculate_article_coverage article extractedText pdplArticles (some j)
        bm25 e5 llmOnly = .ok r
      ∧ r.coveragePercentage = round2 (res.score * 100) := by
  unfold calculate_article_coverage
  simp only [hm, if_true]
  unfold _calculate_article_coverage_llm_article_level
  rw [if_neg hraw]
  simp only [hq]
  split
  · exact ⟨_, rfl, rfl⟩
  · split
    · exact ⟨_, rfl, rfl⟩
    · exact ⟨_, rfl, rfl⟩

/-- Witness for `c4_article_level_judge_score`: a judge answering 0.83 on a
main article, with nonzero retrieval scores. -/
theorem c4_article_level_judge_score_witness :
    ∃ r, calculate_article_coverage articleMain pageDoc []
        (some (judgeConst (83/100))) 5 (1/4) false = .ok r
      ∧ r.coveragePercentage = round2 ((83/100 : ℚ) * 100) := by
  obtain ⟨r, hr, hp⟩ := c4_article_level_judge_score articleMain pageDoc []
    (judgeConst (83/100)) 5 (1/4) false
    { score := 83/100, explanation := "ok", confidence := "high" }
    rfl (by decide) rfl
  exact ⟨r, hr, hp⟩

/-- **C5** (counterexample).  In strict LLM-only mode with NO judge
function at all, a main article whose clause list is empty is still scored
silently: the no-clauses branch of the per-clause path never consults
`_llm_only_mode`, so with an embedding score of 0.9 it returns a 54%
"partially_covered" record instead of raising. -/
theorem c5_counterexample :
    (calculate_article_coverage articleMain pageDoc [] none 0 (9/10) true).map
        (fun r => (r.coveragePercentage, r.coverageType))
      = .ok (54, some "partially_covered") := by
  simp only [calculate_article_coverage, coverageViaClauses, articleMain, pageDoc]
  norm_num [round2, roundHalfEven]
  rfl

/-- **C5** (amended).  The strict-mode guarantee holds on the judged paths:
(1) on the article-level path (main article, non-empty requirement text) a
judge call returning `None` in LLM-only mode yields a fatal error; (2) on
the clause path (here: a non-main article, whose own dict acts as the
single clause, with a non-skipped clause text) an absent judge function or
a judge call returning `None` in LLM-only mode yields a fatal error.  It
does NOT hold for a main article with an empty clause list and no judge
function (see the counterexample): that case is scored from BM25/E5
without any strict-mode check. -/
theorem c5_strict_mode_errors :
    (∀ (article : Article) (extractedText : List Str)
       (pdplArticles : List Article) (j : JudgeFn) (bm25 e5 : ℚ),
       article.isMainArticle = true →
       rawArticleTextOf article article.clauses ≠ [] →
       j { clauseText := rawArticleTextOf article article.clauses,
           pdfText := joinTexts extractedText,
           articleNumber := article.articleNumber,
           clauseLabel := "Article-level" } = none →
       ∃ msg, calculate_article_coverage article extractedText pdplArticles
           (some j) bm25 e5 true = .error msg)
    ∧ (∀ (article : Article) (extractedText : List Str)
        (pdplArticles : List Article) (judgeOpt : Option JudgeFn) (bm25 e5 : ℚ),
        article.isMainArticle = false →
        clauseSkipped article.articleNumber (normalize_text article.text) = false →
        (judgeOpt = none ∨ ∃ j, judgeOpt = some j ∧
          j { clauseText := article.text,
              pdfText := joinTexts extractedText,
              articleNumber := article.articleNumber,
              clauseLabel := article.label } = none) →
        ∃ msg, calculate_article_coverage article extractedText pdplArticles
            judgeOpt bm25 e5 true = .error msg) := by
  constructor
  · intro article extractedText pdplArticles j bm25 e5 hm hraw hq
    simp only [calculate_article_coverage, hm, if_true,
      _calculate_article_coverage_llm_article_level, if_neg hraw, hq]
    exact ⟨_, rfl⟩
  · intro article extractedText pdplArticles judgeOpt bm25 e5 hm hsk hj
    rcases hj with rfl | ⟨j, rfl, hjq⟩
    · simp [calculate_article_coverage, hm, coverageViaClauses,
        processClauses, clauseOfArticle, clauseStep, hsk]
    · simp [calculate_article_coverage, hm, coverageViaClauses,
        processClauses, clauseOfArticle, clauseStep, hsk, hjq]

/-- Witness for `c5_strict_mode_errors`: a main article with its own text
and an always-failing judge in strict mode, and a non-main article with no
judge function in strict mode. -/
theorem c5_strict_mode_errors_witness :
    (∃ msg, calculate_article_coverage articleMain pageDoc []
        (some judgeAbsent) 0 (1/2) true = .error msg)
    ∧ (∃ msg, calculate_article_coverage articleNonMain pageDoc []
        none 0 (1/2) true = .error msg) := by
  constructor
  · exact c5_strict_mode_errors.1 articleMain pageDoc [] judgeAbsent 0 (1/2)
      rfl (by decide) rfl
  · exact c5_strict_mode_errors.2 articleNonMain pageDoc [] none 0 (1/2)
      rfl (by decide) (Or.inl rfl)

/-- A text-fallback retrieval match with similarity 0.5: below the 0.70
semantic floor but above the default text threshold 0.4. -/
def textMatch05 : RetMatch :=
  { article := articleNonMain, similarity := some (1/2), matchType := "text",
    bm25Score := none, e5Score := none, e5Similarity := none,
    keywordOverlap := none }

theorem mem_addSemanticMatches {m : RetMatch} :
    ∀ (l : List RetMatch) (seen : List (Option String × Nat)),
    m ∈ (addSemanticMatches l seen).1 →
    m ∈ l ∧ 0.70 ≤ m.similarity.getD 0
  | [], seen, h => by simp [addSemanticMatches] at h
  | x :: rest, seen, h => by
    unfold addSemanticMatches at h
    split at h
    next =>
      have ih := mem_addSemanticMatches rest seen h
      exact ⟨List.mem_cons_of_mem _ ih.1, ih.2⟩
    next hlt =>
      dsimp only at h
      split at h
      next =>
        have ih := mem_addSemanticMatches rest seen h
        exact ⟨List.mem_cons_of_mem _ ih.1, ih.2⟩
      next =>
        rcases hpair : addSemanticMatches rest
            (seen ++ [(getArticleKey x.article, x.article.articleNumber)])
          with ⟨ms, seen'⟩
        rw [hpair] at h
        dsimp only at h
        rcases List.mem_cons.mp h with rfl | h'
        · exact ⟨List.mem_cons_self _ _, not_lt.mp hlt⟩
        · have ih := mem_addSemanticMatches rest
            (seen ++ [(getArticleKey x.article, x.article.articleNumber)])
            (by rw [hpair]; exact h')
          exact ⟨List.mem_cons_of_mem _ ih.1, ih.2⟩

theorem mem_addTextMatches {m : RetMatch} {threshold : ℚ} :
    ∀ (l : List RetMatch) (seen : List (Option String × Nat)),
    m ∈ addTextMatches threshold l seen →
    m ∈ l ∧ threshold ≤ m.similarity.getD 0
  | [], seen, h => by simp [addTextMatches] at h
  | x :: rest, seen, h => by
    unfold addTextMatches at h
    dsimp only at h
    split at h
    next hc =>
      rcases List.mem_cons.mp h with rfl | h'
      · exact ⟨List.mem_cons_self _ _, hc.2⟩
      · have ih := mem_addTextMatches rest
          (seen ++ [(getArticleKey x.article, x.article.articleNumber)]) h'
        exact ⟨List.mem_cons_of_mem _ ih.1, ih.2⟩
    next =>
      have ih := mem_addTextMatches rest seen h
      exact ⟨List.mem_cons_of_mem _ ih.1, ih.2⟩

theorem mem_combinedMatchesOf {m : RetMatch} {sem txt : List RetMatch}
    {ftb : Bool} {thr : ℚ}
    (h : m ∈ combinedMatchesOf sem txt ftb thr) :
    (m ∈ sem ∧ 0.70 ≤ m.similarity.getD 0)
    ∨ (ftb = true ∧ m ∈ txt ∧ thr ≤ m.similarity.getD 0) := by
  unfold combinedMatchesOf at h
  rcases hpair : addSemanticMatches sem [] with ⟨semMs, seen⟩
  rw [hpair] at h
  dsimp only at h
  cases hf : ftb with
  | false =>
    rw [hf] at h
    simp only [Bool.false_eq_true, if_false, List.append_nil] at h
    exact Or.inl (mem_addSemanticMatches sem [] (by rw [hpair]; exact h))
  | true =>
    rw [hf] at h
    simp only [if_true] at h
    rcases List.mem_append.mp h with hs | ht
    · exact Or.inl (mem_addSemanticMatches sem [] (by rw [hpair]; exact hs))
    · have ih := mem_addTextMatches txt seen ht
      exact Or.inr ⟨rfl, ih.1, ih.2⟩

theorem mem_mapExcept {α β ε : Type} {f : α → Except ε β} :
    ∀ {l : List α} {ys : List β}, mapExcept f l = .ok ys →
    ∀ y ∈ ys, ∃ x ∈ l, f x = .ok y
  | [], ys, h => by
    simp only [mapExcept, Except.ok.injEq] at h
    subst h
    intro y hy
    simp at hy
  | x :: xs, ys, h => by
    unfold mapExcept at h
    cases hfx : f x with
    | error e => rw [hfx] at h; simp at h
    | ok y0 =>
      rw [hfx] at h
      cases hrec : mapExcept f xs with
      | error e => rw [hrec] at h; simp at h
      | ok ys0 =>
        rw [hrec] at h
        injection h with h'
        subst h'
        intro y hy
        rcases List.mem_cons.mp hy with rfl | hy'
        · exact ⟨x, List.mem_cons_self _ _, hfx⟩
        · obtain ⟨x', hx', hfx'⟩ := mem_mapExcept hrec y hy'
          exact ⟨x', List.mem_cons_of_mem _ hx', hfx'⟩

theorem mem_insertDescBy {α} {key : α → ℚ} {y x : α} :
    ∀ (l : List α), y ∈ insertDescBy key x l → y = x ∨ y ∈ l
  | [], h => by
    simp [insertDescBy] at h
    exact Or.inl h
  | z :: zs, h => by
    unfold insertDescBy at h
    split at h
    next =>
      rcases List.mem_cons.mp h with rfl | h'
      · exact Or.inr (List.mem_cons_self _ _)
      · rcases mem_insertDescBy zs h' with rfl | h''
        · exact Or.inl rfl
        · exact Or.inr (List.mem_cons_of_mem _ h'')
    next =>
      rcases List.mem_cons.mp h with rfl | h'
      · exact Or.inl rfl
      · exact Or.inr h'

theorem mem_sortDescBy_aux {α} {key : α → ℚ} {y : α} :
    ∀ (l acc : List α),
    y ∈ l.foldl (fun a x => insertDescBy key x a) acc → y ∈ acc ∨ y ∈ l
  | [], acc, h => Or.inl (by simpa using h)
  | x :: xs, acc, h => by
    rcases mem_sortDescBy_aux xs (insertDescBy key x acc) (by simpa using h)
      with hacc | hxs
    · rcases mem_insertDescBy acc hacc with rfl | h'
      · exact Or.inr (List.mem_cons_self _ _)
      · exact Or.inl h'
    · exact Or.inr (List.mem_cons_of_mem _ hxs)

theorem mem_sortDescBy {α} {key : α → ℚ} {y : α} {l : List α}
    (h : y ∈ sortDescBy key l) : y ∈ l := by
  rcases mem_sortDescBy_aux l [] (by simpa [sortDescBy] using h) with hacc | hl
  · simp at hacc
  · exact hl

/-- **C10** (counterexample).  With text fallback enabled at the default
threshold 0.4, a text match of similarity 0.5 — below the 0.70
embedding-similarity floor — is passed to the Coverage Scorer by
`match_with_pdpl` and receives a coverage record. -/
theorem c10_counterexample :
    textMatch05.similarity.getD 0 < 0.70
    ∧ (match_with_pdpl pageDoc [] [] [textMatch05] none false (2/5) true).map
        (fun l => l.map (fun p => p.1)) = .ok [textMatch05] := by
  constructor
  · norm_num [textMatch05]
  · have hskip : clauseSkipped 7 (normalize_text
        ['r','i','g','h','t',' ','o','f',' ','a','c','c','e','s','s']) = false := by
      decide
    norm_num [match_with_pdpl, combinedMatchesOf, addSemanticMatches,
      addTextMatches, getArticleKey, textMatch05, articleNonMain, pageDoc,
      mapExcept, calculate_article_coverage, coverageViaClauses,
      processClauses, clauseStep, clauseOfArticle, _traditional_clause_match,
      hskip, sortDescBy, insertDescBy, round2, roundHalfEven]
    rfl

/-- **C10** (amended).  Provenance of the articles scored by
`match_with_pdpl`: every coverage record is computed for a member of the
combined match list, and each combined match either is a semantic match
that survived the absolute 0.70 embedding-similarity floor, or — when text
fallback is enabled — a text match that only had to meet the configurable
`threshold` (default 0.4).  The 0.70-floor guarantee therefore holds for
the semantic route only; text-fallback matches can reach the Coverage
Scorer with similarity as low as `threshold` (see the counterexample). -/
theorem c10_similarity_floor
    (semanticMatches textMatches : List RetMatch) (useTextFallback : Bool)
    (threshold : ℚ) :
    (∀ m ∈ combinedMatchesOf semanticMatches textMatches useTextFallback
        threshold,
      (m ∈ semanticMatches ∧ 0.70 ≤ m.similarity.getD 0)
      ∨ (useTextFallback = true ∧ m ∈ textMatches
          ∧ threshold ≤ m.similarity.getD 0))
    ∧ (∀ (extractedText : List Str) (pdplArticles : List Article)
        (judge : Option JudgeFn) (llmOnlyMode : Bool)
        (results : List (RetMatch × CoverageResult)),
        match_with_pdpl extractedText pdplArticles semanticMatches textMatches
          judge llmOnlyMode threshold useTextFallback = .ok results →
        ∀ p ∈ results,
          p.1 ∈ combinedMatchesOf semanticMatches textMatches useTextFallback
            threshold) := by
  constructor
  · intro m hm
    exact mem_combinedMatchesOf hm
  · intro extractedText pdplArticles judge llmOnlyMode results h p hp
    simp only [match_with_pdpl] at h
    split at h
    next e heq =>
      exact absurd h (by simp)
    next results' heq =>
      injection h with h'
      subst h'
      have hp' := mem_sortDescBy hp
      obtain ⟨x, hx, hfx⟩ := mem_mapExcept heq p hp'
      cases hcov : calculate_article_coverage x.article extractedText
          pdplArticles judge (x.bm25Score.getD 0)
          (match x.e5Score with
           | some v => v
           | none => x.e5Similarity.getD 0) llmOnlyMode with
      | error e =>
        rw [hcov] at hfx
        simp at hfx
      | ok cov =>
        rw [hcov] at hfx
        injection hfx with h2
        rw [← h2]
        exact hx

/-- Witness for `c10_similarity_floor`: the concrete 0.5-similarity text
match in the combined list, with fallback enabled at threshold 0.4. -/
theorem c10_similarity_floor_witness :
    (textMatch05 ∈ ([] : List RetMatch)
      ∧ (0.70 : ℚ) ≤ textMatch05.similarity.getD 0)
    ∨ (true = true ∧ textMatch05 ∈ [textMatch05]
      ∧ (2/5 : ℚ) ≤ textMatch05.similarity.getD 0) := by
  refine (c10_similarity_floor [] [textMatch05] true (2/5)).1 textMatch05 ?_
  norm_num [combinedMatchesOf, addSemanticMatches, addTextMatches,
    getArticleKey, textMatch05, articleNonMain]
